import Mathlib

/-!
Shallow embedding of the statement-import core of the finance-tracker
repository (src/unnamed/part_002, the current statement-import service;
src/schema.sql for the ledger's CHECK constraints), together with proofs
about the embedded definitions.

Conventions:
* JS strings are Lean `String`s; character-level work uses `List Char`.
  The inputs handled by this service are ASCII bank-statement text, so
  `Char.toLower`-based lowering coincides with JS `toLowerCase`.
* Decimal amounts are `ℚ` (JS numbers; all claim-relevant values are
  exact in double precision and in ℚ alike).
* The JS `new Date(str)` fallback inside `parseDate` is a host-library
  call; it is threaded through as an explicit parameter
  `fb : String → Option String` so that nothing about it is assumed.
* Database tables are Lean lists; SQL reads/writes are filter/map/append
  operations mirroring each query of the source.
-/

/-- JS-style lowercasing (ASCII). -/
def jsToLower (s : String) : String :=
  String.mk (s.toList.map Char.toLower)

/-- Does `cs` start with `pat`? -/
def startsWithChars : List Char → List Char → Bool
  | _, [] => true
  | [], _ :: _ => false
  | c :: cs, p :: ps => c == p && startsWithChars cs ps

/-- Does `cs` contain `pat` as a contiguous run (JS `String.includes`)? -/
def containChars : List Char → List Char → Bool
  | cs, pat =>
    match cs with
    | [] => pat.isEmpty
    | _ :: rest => startsWithChars cs pat || containChars rest pat

/-- JS `hay.includes(needle)`. -/
def jsIncludes (hay needle : String) : Bool :=
  containChars hay.toList needle.toList

/-- JS regex `\s` over the ASCII range (space, tab, LF, CR, VT, FF). -/
def isSpaceJS (c : Char) : Bool :=
  c == ' ' || c == '\t' || c == '\n' || c == '\r' || c == '\x0b' || c == '\x0c'

/-- JS regex word character `\w` = `[A-Za-z0-9_]`. -/
def isWordChar (c : Char) : Bool :=
  c.isAlpha || c.isDigit || c == '_'

/-- Digit list to the natural number it denotes (JS `parseInt` on an
all-digit string). -/
def digitsToNat (ds : List Char) : Nat :=
  ds.foldl (fun acc c => acc * 10 + (c.toNat - '0'.toNat)) 0

/-- `padStart(2, '0')` for an (at most two digit) numeric token. -/
def pad2 (ds : List Char) : String :=
  if ds.length == 1 then String.mk ('0' :: ds) else String.mk ds

/-- Worker of `collapseWS`; the flag records whether the previous
character belonged to a whitespace run. -/
def collapseGo : Bool → List Char → List Char
  | _, [] => []
  | prevSpace, c :: cs =>
    if isSpaceJS c then
      if prevSpace then collapseGo true cs
      else ' ' :: collapseGo true cs
    else c :: collapseGo false cs

/-- Collapse every whitespace run to a single blank
(JS `replace(/\s+/g, ' ')`). -/
def collapseWS (s : String) : String :=
  String.mk (collapseGo false s.toList)

/-- JS `String.prototype.trim` (whitespace stripped from both ends),
implemented over the character list so that it evaluates by `decide`. -/
def jsTrim (s : String) : String :=
  String.mk (((s.toList.dropWhile isSpaceJS).reverse.dropWhile isSpaceJS).reverse)

/-- `s.slice(0, n)` over characters. -/
def strTake (s : String) (n : Nat) : String :=
  String.mk (s.toList.take n)

/-- `s.slice(n)` over characters. -/
def strDrop (s : String) (n : Nat) : String :=
  String.mk (s.toList.drop n)

/-- Split at every separator character (pieces may be empty), like
`String.split` / JS `split`. -/
def splitByGo (p : Char → Bool) : List Char → List Char → List (List Char)
  | [], acc => [acc.reverse]
  | c :: rest, acc =>
    if p c then acc.reverse :: splitByGo p rest []
    else splitByGo p rest (c :: acc)

/-- Split a character list at separators. -/
def splitBy (p : Char → Bool) (cs : List Char) : List (List Char) :=
  splitByGo p cs []

/-- Separator class of the numeric date regexes: `[\/\-.]`. -/
def isDateSep (c : Char) : Bool :=
  c == '/' || c == '-' || c == '.'

/-- Separator class of the `day Mon year` regex: `[\s\-]`. -/
def isMonSep (c : Char) : Bool :=
  isSpaceJS c || c == '-'

/-- Matcher for the two anchored numeric-date regexes of `parseDate`
(`^(\d{1,2})[\/\-.](\d{1,2})[\/\-.](\d{4})$` and its 2-digit-year twin):
returns the day, month and year digit runs.  A maximal leading digit run
of length 3 or more makes the regex fail, because the character after
two digits is a digit, not a separator. -/
def matchNumericDMY (s : String) : Option (List Char × List Char × List Char) :=
  let cs := s.toList
  let (d, r1) := cs.span Char.isDigit
  if 1 ≤ d.length && d.length ≤ 2 then
    match r1 with
    | s1 :: r2 =>
      if isDateSep s1 then
        let (m, r3) := r2.span Char.isDigit
        if 1 ≤ m.length && m.length ≤ 2 then
          match r3 with
          | s2 :: r4 =>
            if isDateSep s2 then
              let (y, r5) := r4.span Char.isDigit
              if r5.isEmpty && (y.length == 2 || y.length == 4) then
                some (d, m, y)
              else none
            else none
          | [] => none
        else none
      else none
    | [] => none
  else none

/-- Matcher for `^(\d{4})[\/\-.](\d{1,2})[\/\-.](\d{1,2})$`. -/
def matchISOYMD (s : String) : Option (List Char × List Char × List Char) :=
  let cs := s.toList
  let (y, r1) := cs.span Char.isDigit
  if y.length == 4 then
    match r1 with
    | s1 :: r2 =>
      if isDateSep s1 then
        let (m, r3) := r2.span Char.isDigit
        if 1 ≤ m.length && m.length ≤ 2 then
          match r3 with
          | s2 :: r4 =>
            if isDateSep s2 then
              let (d, r5) := r4.span Char.isDigit
              if r5.isEmpty && 1 ≤ d.length && d.length ≤ 2 then
                some (y, m, d)
              else none
            else none
          | [] => none
        else none
      else none
    | [] => none
  else none

/-- Matcher for `^(\d{1,2})[\s\-]([A-Za-z]{3})[\s\-](\d{2,4})$`
(e.g. `15 Jan 2024`, `15-Jan-24`). -/
def matchMonDMY (s : String) : Option (List Char × List Char × List Char) :=
  let cs := s.toList
  let (d, r1) := cs.span Char.isDigit
  if 1 ≤ d.length && d.length ≤ 2 then
    match r1 with
    | s1 :: r2 =>
      if isMonSep s1 then
        let (a, r3) := r2.span Char.isAlpha
        if a.length == 3 then
          match r3 with
          | s2 :: r4 =>
            if isMonSep s2 then
              let (y, r5) := r4.span Char.isDigit
              if r5.isEmpty && 2 ≤ y.length && y.length ≤ 4 then
                some (d, a, y)
              else none
            else none
          | [] => none
        else none
      else none
    | [] => none
  else none

/-- The month-abbreviation table of `parseDate`. -/
def monthsTable : List (String × String) :=
  [("jan", "01"), ("feb", "02"), ("mar", "03"), ("apr", "04"),
   ("may", "05"), ("jun", "06"), ("jul", "07"), ("aug", "08"),
   ("sep", "09"), ("oct", "10"), ("nov", "11"), ("dec", "12")]

/-- `parseDate` from src/unnamed/part_002 lines 97–124.  `fb` stands for
the final `new Date(str)` host fallback; every earlier branch mirrors
one of the four anchored regexes, tried in source order. -/
def parseDate (fb : String → Option String) (s : String) : Option String :=
  if s == "" then none
  else
    let t := jsTrim s
    match matchNumericDMY t with
    | some (d, m, y) =>
      if y.length == 4 then
        some (String.mk y ++ "-" ++ pad2 m ++ "-" ++ pad2 d)
      else
        let yr := if 50 < digitsToNat y then "19" ++ String.mk y else "20" ++ String.mk y
        some (yr ++ "-" ++ pad2 m ++ "-" ++ pad2 d)
    | none =>
      match matchISOYMD t with
      | some (y, m, d) =>
        some (String.mk y ++ "-" ++ pad2 m ++ "-" ++ pad2 d)
      | none =>
        match matchMonDMY t with
        | some (d, a, y) =>
          match monthsTable.lookup (jsToLower (String.mk a)) with
          | some mon =>
            let yr := if y.length == 2 then "20" ++ String.mk y else String.mk y
            some (yr ++ "-" ++ mon ++ "-" ++ pad2 d)
          | none => fb t
        | none => fb t

/-- JS `parseFloat`: longest numeric prefix `[+-]?(\d*\.?\d*)([eE][+-]?\d+)?`
with at least one mantissa digit; `none` models `NaN`.  (The exotic
`Infinity` literal is not modelled; no caller in this service feeds it.)
The parsed value `sign × int.frac × 10^exp` is assembled as the exact
rational `sign·mant·10^max(exp,0) / 10^(fracLen + max(−exp,0))`. -/
def jsParseFloat (s : String) : Option ℚ :=
  let cs := s.toList
  let (sgn, r0) :=
    match cs with
    | '+' :: rest => ((1 : Int), rest)
    | '-' :: rest => ((-1 : Int), rest)
    | _ => ((1 : Int), cs)
  let (intDs, r1) := r0.span Char.isDigit
  let (fracDs, r2) :=
    match r1 with
    | '.' :: rest => rest.span Char.isDigit
    | _ => ([], r1)
  if intDs.isEmpty && fracDs.isEmpty then none
  else
    let mant : Int := (digitsToNat intDs : Int) * (10 : Int) ^ fracDs.length
      + (digitsToNat fracDs : Int)
    let expv : Int :=
      match r2 with
      | 'e' :: rest => readExp rest
      | 'E' :: rest => readExp rest
      | _ => 0
    some (Rat.divInt (sgn * mant * (10 : Int) ^ expv.toNat)
      ((10 : Int) ^ (fracDs.length + (-expv).toNat)))
where
  readExp (rest : List Char) : Int :=
    match rest with
    | '+' :: ds => (digitsToNat (ds.takeWhile Char.isDigit) : Int)
    | '-' :: ds =>
      if (ds.takeWhile Char.isDigit).isEmpty then 0
      else -(digitsToNat (ds.takeWhile Char.isDigit) : Int)
    | ds => (digitsToNat (ds.takeWhile Char.isDigit) : Int)

/-- `str.replace(/[₹\s]/g, '')`. -/
def stripCurrency (s : String) : String :=
  String.mk (s.toList.filter (fun c => !(c == '₹' || isSpaceJS c)))

/-- `str.replace(/,/g, '')`. -/
def removeCommas (s : String) : String :=
  String.mk (s.toList.filter (fun c => !(c == ',')))

/-- JS `Math.abs`. -/
def jsAbs (q : ℚ) : ℚ :=
  if q < 0 then -q else q

/-- `parseAmount` from src/unnamed/part_002 lines 127–134: strip rupee
glyphs and whitespace, drop every grouping comma, `parseFloat`, absolute
value; `NaN` (and the falsy empty string) map to 0. -/
def parseAmount (s : String) : ℚ :=
  if s == "" then 0
  else
    match jsParseFloat (removeCommas (stripCurrency s)) with
    | none => 0
    | some q => jsAbs q

/-! Page-layout (PDF) reconstructor, src/unnamed/part_002 lines 239–494.
The embedding starts from the collected positioned text items (`allItems`
in the source, produced there by the host PDF library). -/

/-- One positioned text item: `{ text, x, y, page }`. -/
structure PItem where
  text : String
  x : Int
  y : Int
  page : Nat
deriving Repr, DecidableEq

/-- Stable insertion sort with a strictly-before test, matching the
stable ascending sort of JS `Array.prototype.sort`. -/
def insertBy {α : Type} (lt : α → α → Bool) (a : α) : List α → List α
  | [] => [a]
  | h :: t => if lt h a then h :: insertBy lt a t else a :: h :: t

/-- Sort a list with `insertBy` (stable). -/
def sortBy {α : Type} (lt : α → α → Bool) : List α → List α
  | [] => []
  | h :: t => insertBy lt h (sortBy lt t)

/-- The comparator `(a, b) => a.page - b.page || a.y - b.y || a.x - b.x`. -/
def itemBefore (a b : PItem) : Bool :=
  a.page < b.page || (a.page == b.page && (a.y < b.y || (a.y == b.y && a.x < b.x)))

/-- The within-row comparator `(a, b) => a.x - b.x`. -/
def xBefore (a b : PItem) : Bool := a.x < b.x

/-- Row-clustering loop (lines 259–274): a new row starts when the page
changes or the vertical distance to the row-starting y exceeds 4. -/
def clusterLoop : List PItem → List PItem → Int → Option Nat → List (List PItem)
  | [], cur, _, _ => if cur.isEmpty then [] else [cur]
  | it :: rest, cur, curY, curPage =>
    if curPage != some it.page || 4 < (it.y - curY).natAbs then
      (if cur.isEmpty then [] else [cur]) ++ clusterLoop rest [it] it.y (some it.page)
    else
      clusterLoop rest (cur ++ [it]) curY curPage

/-- A reconstructed row: its items sorted by x, and their texts joined
with a double space. -/
structure Row where
  items : List PItem
  text : String
deriving Repr, DecidableEq

/-- Build the clustered rows from the raw items (sort, cluster, then
sort each row by x and join the texts). -/
def mkRowsFromItems (items : List PItem) : List Row :=
  (clusterLoop (sortBy itemBefore items) [] (-999) none).map fun grp =>
    let g := sortBy xBefore grp
    ⟨g, String.intercalate "  " (g.map (·.text))⟩

/-- Bank/issuer detection over the concatenated row text
(lines 282–291); a credit-card marker appends `_cc`. -/
def bankTypeOf (rows : List Row) : String :=
  let fullText := jsToLower (String.intercalate " " (rows.map (·.text)))
  let base :=
    if jsIncludes fullText "hdfc bank" then "hdfc"
    else if jsIncludes fullText "state bank of india" || jsIncludes fullText "sbi" then "sbi"
    else if jsIncludes fullText "icici bank" then "icici"
    else if jsIncludes fullText "axis bank" then "axis"
    else if jsIncludes fullText "kotak" then "kotak"
    else "generic"
  if jsIncludes fullText "credit card" || jsIncludes fullText "card number"
      || jsIncludes fullText "card no" then
    base ++ "_cc"
  else base

/-- The fixed header keyword list (line 295). -/
def headerKeywords : List String :=
  ["date", "narration", "description", "particulars", "withdrawal",
   "deposit", "debit", "credit", "balance", "chq", "ref"]

/-- Number of header keywords occurring in a row's lower-cased text. -/
def headerHits (r : Row) : Nat :=
  (headerKeywords.filter (fun k => jsIncludes (jsToLower r.text) k)).length

/-- Index of the first list element satisfying `p`. -/
def findFirstIdx {α : Type} (p : α → Bool) : List α → Option Nat
  | [] => none
  | a :: t => if p a then some 0 else (findFirstIdx p t).map (· + 1)

/-- JS truthiness of a nullable numeric column anchor (`null` and `0`
are both falsy). -/
def optTruthy : Option Int → Bool
  | none => false
  | some v => v != 0

/-- The column-anchor map built from the header row (lines 319–339). -/
structure ColMap where
  date : Option Int := none
  narration : Option Int := none
  ref : Option Int := none
  valueDate : Option Int := none
  withdrawal : Option Int := none
  deposit : Option Int := none
  balance : Option Int := none
deriving Repr, DecidableEq

/-- One step of the header-item classification chain (lines 321–330). -/
def colMapStep (cm : ColMap) (it : PItem) : ColMap :=
  let t := jsToLower it.text
  if jsIncludes t "date" && !jsIncludes t "value" && !optTruthy cm.date then
    { cm with date := some it.x }
  else if (jsIncludes t "value" && jsIncludes t "dt")
      || (jsIncludes t "value" && jsIncludes t "date") then
    { cm with valueDate := some it.x }
  else if jsIncludes t "narration" || jsIncludes t "description"
      || jsIncludes t "particulars" || jsIncludes t "detail" then
    { cm with narration := some it.x }
  else if jsIncludes t "chq" || jsIncludes t "ref" || jsIncludes t "cheque" then
    { cm with ref := some it.x }
  else if jsIncludes t "withdrawal" || jsIncludes t "debit"
      || t == "dr" || t == "dr." then
    { cm with withdrawal := some it.x }
  else if jsIncludes t "deposit" || jsIncludes t "credit"
      || t == "cr" || t == "cr." then
    { cm with deposit := some it.x }
  else if jsIncludes t "balance" || jsIncludes t "closing" then
    { cm with balance := some it.x }
  else cm

/-- Minimum of a list of integers (for `Math.min(...xs)`; callers
guarantee nonemptiness). -/
def listMinInt : List Int → Int
  | [] => 0
  | h :: t => t.foldl min h

/-- Maximum of a list of integers. -/
def listMaxInt : List Int → Int
  | [] => 0
  | h :: t => t.foldl max h

/-- Build the column map, including the two-`amount`-columns fallback
(lines 333–339). -/
def buildColMap (headerItems : List PItem) : ColMap :=
  let cm := headerItems.foldl colMapStep {}
  if !optTruthy cm.withdrawal && !optTruthy cm.deposit then
    let amtItems := headerItems.filter fun i =>
      jsIncludes (jsToLower i.text) "amount" || jsIncludes (jsToLower i.text) "amt"
    if 2 ≤ amtItems.length then
      { cm with withdrawal := some (listMinInt (amtItems.map (·.x)))
                deposit := some (listMaxInt (amtItems.map (·.x))) }
    else cm
  else cm

/-- The anchored data-row date regex
`^\d{1,2}[\/\-\.]\d{1,2}[\/\-\.]\d{2,4}$` (line 345). -/
def matchesDateTokenAnchored (s : String) : Bool :=
  let cs := s.toList
  let (d, r1) := cs.span Char.isDigit
  (1 ≤ d.length && d.length ≤ 2) &&
    match r1 with
    | s1 :: r2 =>
      isDateSep s1 &&
        (let (m, r3) := r2.span Char.isDigit
         (1 ≤ m.length && m.length ≤ 2) &&
           match r3 with
           | s2 :: r4 =>
             isDateSep s2 &&
               (let (y, r5) := r4.span Char.isDigit
                r5.isEmpty && 2 ≤ y.length && y.length ≤ 4)
           | [] => false)
    | [] => false

/-- The numeric-cell shape `^[\d,]+\.\d{2}$`: since `.` is outside the
`[\d,]` class, only the maximal class run can precede the dot, so the
greedy regex accepts exactly this decomposition. -/
def numShape (s : String) : Bool :=
  let (r, rest) := s.toList.span (fun c => c.isDigit || c == ',')
  match rest with
  | '.' :: d1 :: d2 :: [] => !r.isEmpty && d1.isDigit && d2.isDigit
  | _ => false

/-- The double numeric test of line 392. -/
def numericCellTest (t : String) : Bool :=
  numShape (jsTrim (removeCommas t))
    || numShape (String.mk (t.toList.filter (fun c => !(c == ',' || isSpaceJS c))))

/-- The regex `^\d{5,}` (line 412). -/
def startsWithFiveDigits (s : String) : Bool :=
  5 ≤ (s.toList.takeWhile Char.isDigit).length

/-- Accumulator of the per-item column assignment loop (lines 378–420);
numeric assignments overwrite (last write wins), matching the source's
mutable variables. -/
structure ColAcc where
  narrationParts : List String := []
  withdrawal : ℚ := 0
  deposit : ℚ := 0
  balance : Option ℚ := none
  refNo : String := ""
deriving Repr, DecidableEq

/-- Nearest truthy column anchor for a numeric token: candidate list in
object-insertion order (withdrawal, deposit, balance), stable-sorted by
distance, first entry (lines 398–409). -/
def closestCol (cm : ColMap) (x : Int) : Option String :=
  let entries :=
    (if optTruthy cm.withdrawal then [("withdrawal", (x - cm.withdrawal.getD 0).natAbs)] else [])
    ++ (if optTruthy cm.deposit then [("deposit", (x - cm.deposit.getD 0).natAbs)] else [])
    ++ (if optTruthy cm.balance then [("balance", (x - cm.balance.getD 0).natAbs)] else [])
  ((sortBy (fun a b => a.2 < b.2) entries).head?).map (·.1)

/-- One step of the per-item loop of the header-anchored extractor.  The
index-0 item is the transaction-starting date token and is skipped
(`t === firstItemText && item === items[0]`). -/
def itemStep (cm : ColMap) (acc : ColAcc) (idx : Nat) (it : PItem) : ColAcc :=
  if idx == 0 then acc
  else
    let t := it.text
    if numericCellTest t then
      let val := parseAmount t
      if val == 0 then acc
      else
        match closestCol cm it.x with
        | some "withdrawal" => { acc with withdrawal := val }
        | some "deposit" => { acc with deposit := val }
        | some "balance" => { acc with balance := some val }
        | _ => acc
    else if optTruthy cm.ref && (it.x - cm.ref.getD 0).natAbs < 60 then
      if startsWithFiveDigits t then { acc with refNo := jsTrim (acc.refNo ++ " " ++ t) }
      else { acc with narrationParts := acc.narrationParts ++ [t] }
    else if optTruthy cm.valueDate && (it.x - cm.valueDate.getD 0).natAbs < 40
        && matchesDateTokenAnchored t then
      acc
    else { acc with narrationParts := acc.narrationParts ++ [t] }

/-- An extracted raw transaction candidate. -/
structure RawTx where
  date : String
  description : String
  amount : ℚ
  ttype : String
  balance : Option ℚ
deriving Repr, DecidableEq

/-- Continuation-stopping test of the look-ahead loop (lines 365–375):
the next row starts a new date or is a summary/total row. -/
def stopRow (r : Row) : Bool :=
  let nextFirst := ((r.items.head?).map (·.text)).getD ""
  matchesDateTokenAnchored nextFirst
    || jsIncludes (jsToLower nextFirst) "total"
    || jsIncludes (jsToLower nextFirst) "opening"
    || jsIncludes (jsToLower nextFirst) "closing"
    || jsIncludes (jsToLower nextFirst) "statement"

/-- Build one transaction from a date-starting row and its continuation
rows (lines 357–432). -/
def buildHeaderTx (fb : String → Option String) (cm : ColMap) (row : Row)
    (contRows : List Row) : List RawTx :=
  let firstItemText := ((row.items.head?).map (·.text)).getD ""
  match parseDate fb firstItemText with
  | none => []
  | some date =>
    let txItems := row.items ++ contRows.flatMap (·.items)
    let acc := (txItems.enum).foldl (fun a p => itemStep cm a p.1 p.2) {}
    let description := jsTrim (collapseWS (String.intercalate " " acc.narrationParts))
    let amtType : ℚ × String :=
      if 0 < acc.withdrawal then (acc.withdrawal, "debit")
      else if 0 < acc.deposit then (acc.deposit, "credit")
      else (0, "debit")
    if 0 < amtType.1 && description != "" then
      [⟨date,
        if acc.refNo != "" then description ++ " [Ref: " ++ acc.refNo ++ "]" else description,
        amtType.1, amtType.2, acc.balance⟩]
    else []

/-- Does this row open a transaction: its first item matches the
anchored date regex and `parseDate` accepts it? -/
def rowOpensTx (fb : String → Option String) (r : Row) : Bool :=
  let firstItemText := ((r.items.head?).map (·.text)).getD ""
  matchesDateTokenAnchored firstItemText
    && (parseDate fb firstItemText).isSome

/-- The data-row scan of the header-anchored extractor (lines 344–435)
as a single pass: a date-starting row opens a transaction, following
rows are merged until a stop row, and the scan resumes at the stop row
(which may itself open the next transaction).  This is the source's
index loop (`i = j` resumes at the stopping row) in structural form. -/
def extractGo (fb : String → Option String) (cm : ColMap) :
    List Row → Option (Row × List Row) → List RawTx
  | [], none => []
  | [], some (r0, conts) => buildHeaderTx fb cm r0 conts
  | r :: rest, none =>
    if rowOpensTx fb r then extractGo fb cm rest (some (r, []))
    else extractGo fb cm rest none
  | r :: rest, some (r0, conts) =>
    if stopRow r then
      buildHeaderTx fb cm r0 conts
        ++ (if rowOpensTx fb r then extractGo fb cm rest (some (r, []))
            else extractGo fb cm rest none)
    else extractGo fb cm rest (some (r0, conts ++ [r]))

/-- Data-row extraction: scan the rows after the header. -/
def extractRows (fb : String → Option String) (cm : ColMap)
    (rows : List Row) : List RawTx :=
  extractGo fb cm rows none

/-! Line-based fallback extractor, src/unnamed/part_002 lines 442–494. -/

/-- Length of the prefix matched by
`^(\d{1,2}[\/\-\.]\d{1,2}[\/\-\.]\d{2,4}|\d{1,2}[\s\-][A-Za-z]{3}[\s\-]\d{2,4})`
(no end anchor: the year part greedily takes up to four digits), or
`none` when neither alternative matches at the start. -/
def matchDateAtStart (s : String) : Option Nat :=
  let cs := s.toList
  let numericAlt : Option Nat :=
    let (d, r1) := cs.span Char.isDigit
    if 1 ≤ d.length && d.length ≤ 2 then
      match r1 with
      | s1 :: r2 =>
        if isDateSep s1 then
          let (m, r3) := r2.span Char.isDigit
          if 1 ≤ m.length && m.length ≤ 2 then
            match r3 with
            | s2 :: r4 =>
              if isDateSep s2 then
                let (y, _) := r4.span Char.isDigit
                if 2 ≤ y.length then some (d.length + 1 + m.length + 1 + min y.length 4)
                else none
              else none
            | [] => none
          else none
        else none
      | [] => none
    else none
  match numericAlt with
  | some n => some n
  | none =>
    let (d, r1) := cs.span Char.isDigit
    if 1 ≤ d.length && d.length ≤ 2 then
      match r1 with
      | s1 :: r2 =>
        if isMonSep s1 then
          let (a, r3) := r2.span Char.isAlpha
          if a.length == 3 then
            match r3 with
            | s2 :: r4 =>
              if isMonSep s2 then
                let (y, _) := r4.span Char.isDigit
                if 2 ≤ y.length then some (d.length + 1 + 3 + 1 + min y.length 4)
                else none
              else none
            | [] => none
          else none
        else none
      | [] => none
    else none

/-- Character class `[\d,]` of the amount regex. -/
def isAmtClass (c : Char) : Bool :=
  c.isDigit || c == ','

/-- Fuelled worker of `scanAmounts`; every step consumes at least one
character, so fuel equal to the list length never runs out. -/
def scanAmountsGo : Nat → List Char → Nat → List (String × Nat)
  | 0, _, _ => []
  | _ + 1, [], _ => []
  | fuel + 1, c :: cs, pos =>
    if isAmtClass c then
      let run := (c :: cs).takeWhile isAmtClass
      let rest := (c :: cs).dropWhile isAmtClass
      match rest with
      | '.' :: d1 :: d2 :: _ =>
        if d1.isDigit && d2.isDigit then
          (String.mk (run ++ ['.', d1, d2]), pos)
            :: scanAmountsGo fuel (cs.drop (run.length + 2)) (pos + run.length + 3)
        else scanAmountsGo fuel cs (pos + 1)
      | _ => scanAmountsGo fuel cs (pos + 1)
    else scanAmountsGo fuel cs (pos + 1)

/-- All matches of the global regex `/[\d,]+\.\d{2}/g` with their start
indices.  Since `.` is outside `[\d,]`, only the maximal class run can
precede the dot, so leftmost matching reduces to: at each class-run
start, succeed exactly when the run is followed by `.` and two digits,
then resume after the match. -/
def scanAmounts (cs : List Char) (pos : Nat) : List (String × Nat) :=
  scanAmountsGo cs.length cs pos

/-- The refund/credit marker regex
`/\b(cr|credit|refund|cashback|reversal|payment received)\b/i`
(line 488).  Word boundaries check that the neighbouring characters are
not `[A-Za-z0-9_]`; the scan runs over the lower-cased line, which
preserves word-character status. -/
def markerWords : List String :=
  ["cr", "credit", "refund", "cashback", "reversal", "payment received"]

/-- Does word `w` occur at the head of `cs` with word boundaries on both
sides, `prev` being the character just before? -/
def wordAtHead (prev : Option Char) (cs : List Char) (w : List Char) : Bool :=
  startsWithChars cs w
    && (match prev with | none => true | some p => !isWordChar p)
    && (match cs.drop w.length with | [] => true | n :: _ => !isWordChar n)

/-- Scan for any marker word with boundaries. -/
def markerScan (prev : Option Char) : List Char → Bool
  | [] => false
  | c :: rest =>
    markerWords.any (fun w => wordAtHead prev (c :: rest) w.toList)
      || markerScan (some c) rest

/-- `markerRegex.test(line)` of line 488. -/
def markerTest (line : String) : Bool :=
  markerScan none (jsToLower line).toList

/-- The per-line body of `parsePDFLineBased` (lines 447–491): given the
bank type, a row's text and the following row's text (if any), produce
the candidate this line yields. -/
def lineTx (fb : String → Option String) (bankType : String) (line : String)
    (next : Option String) : Option RawTx :=
  match matchDateAtStart line with
  | none => none
  | some mlen =>
    match parseDate fb (strTake line mlen) with
    | none => none
    | some date =>
      let amtStr := strDrop line mlen
      let amounts := (scanAmounts amtStr.toList 0).map (fun p => (parseAmount p.1, p.2))
      if amounts.isEmpty then none
      else
        let descRaw :=
          match (scanAmounts amtStr.toList 0).head? with
          | some (_, idx) => jsTrim (collapseWS (jsTrim (strTake amtStr idx)))
          | none => ""
        let description :=
          if descRaw.length < 5 then
            match next with
            | some nxt =>
              if (matchDateAtStart nxt).isNone then jsTrim (descRaw ++ " " ++ nxt)
              else descRaw
            | none => descRaw
          else descRaw
        let vals := amounts.map (·.1)
        let triple : ℚ × String × Option ℚ :=
          if 3 ≤ vals.length then
            let v0 := vals.headI
            let v1 := (vals.get? 1).getD 0
            let last := vals.getLastD 0
            if 0 < v0 && v1 == 0 then (v0, "debit", some last)
            else if 0 < v1 then (v1, "credit", some last)
            else (v0, "debit", some last)
          else if vals.length == 2 then
            (vals.headI, "debit", some ((vals.get? 1).getD 0))
          else (vals.headI, "debit", none)
        let ttype :=
          if jsIncludes bankType "_cc" then
            if markerTest line then "credit" else "debit"
          else triple.2.1
        if 0 < triple.1 then some ⟨date, description, triple.1, ttype, triple.2.2⟩
        else none

/-- Pair every element with its successor's text. -/
def pairWithNext : List String → List (String × Option String)
  | [] => []
  | [a] => [(a, none)]
  | a :: b :: rest => (a, some b) :: pairWithNext (b :: rest)

/-- `parsePDFLineBased` (lines 442–494): every row is processed
independently; the following row's text only feeds the short-description
extension. -/
def parsePDFLineBased (fb : String → Option String) (lines : List String)
    (bankType : String) : List RawTx :=
  (pairWithNext lines).filterMap (fun p => lineTx fb bankType p.1 p.2)

/-- `parsePDF` from the collected positioned items onward
(lines 256–438): cluster rows, detect the bank type, find the header
row; with a header, run the column-anchored extractor (which takes no
bank type — the credit-card flip exists only in the fallback); without
one, fall back to the line-based extractor. -/
def parsePDFItems (fb : String → Option String) (items : List PItem) : List RawTx :=
  let rows := mkRowsFromItems items
  let bankType := bankTypeOf rows
  match findFirstIdx (fun r => 3 ≤ headerHits r) rows with
  | none => parsePDFLineBased fb (rows.map (·.text)) bankType
  | some i =>
    let headerItems := ((rows.get? i).map (·.items)).getD []
    let cm := buildColMap headerItems
    extractRows fb cm (rows.drop (i + 1))

/-! Auto-classification engine, src/unnamed/part_002 lines 499–599, and
the staging / rules / ledger store, lines 604–910.  Tables are lists;
each SQL statement of the source is mirrored by a filter/map/append. -/

/-- A `category_rules` row (schema lines 72–84). -/
structure RuleRow where
  user : Nat
  pattern : String
  category : String
  debitAcc : Option Nat
  creditAcc : Option Nat
  hitCount : Nat
deriving Repr, DecidableEq

/-- An `accounts` row as consumed here (id, owner, name, type, opening
and derived balances). -/
structure Account where
  id : Nat
  user : Nat
  name : String
  atype : String
  subType : String
  openingBalance : ℚ
  calculatedBalance : ℚ
deriving Repr, DecidableEq

/-- A `staged_transactions` row. -/
structure StagedRow where
  id : Nat
  user : Nat
  batch : String
  date : String
  description : String
  amount : ℚ
  ttype : String
  balance : Option ℚ
  category : String
  debitAcc : Option Nat
  creditAcc : Option Nat
  confidence : ℚ
  status : String
  sourceFile : String
deriving Repr, DecidableEq

/-- A `transactions` (ledger) row as written by this service. -/
structure LedgerTx where
  user : Nat
  date : String
  amount : ℚ
  description : String
  debitAcc : Nat
  creditAcc : Nat
  category : String
deriving Repr, DecidableEq

/-- The whole persistent state touched by the service. -/
structure DB where
  staged : List StagedRow
  rules : List RuleRow
  ledger : List LedgerTx
  accounts : List Account
deriving Repr, DecidableEq

/-- Descending-`hit_count` comparator (strictly-before form). -/
def hitBefore (a b : RuleRow) : Bool :=
  b.hitCount < a.hitCount

/-- `SELECT * FROM category_rules WHERE user_id = $1 ORDER BY hit_count
DESC` (lines 501–504): the owner's rules, sorted by descending hit
count. -/
def fetchRules (rules : List RuleRow) (u : Nat) : List RuleRow :=
  sortBy hitBefore (rules.filter (fun r => r.user == u))

/-- The fixed default keyword table (lines 518–539), in source order. -/
def defaultRules : List (List String × String) :=
  [ (["swiggy", "zomato", "uber eats", "food", "restaurant", "hotel", "dhaba",
      "cafe", "pizza", "dominos", "mcdonalds", "kfc", "burger"], "Food"),
    (["bigbasket", "blinkit", "zepto", "dmart", "grocery", "reliance fresh",
      "nature basket", "more supermarket", "supermarket", "milk", "vegetables"], "Grocery"),
    (["amazon", "flipkart", "myntra", "ajio", "meesho", "nykaa", "shopping",
      "croma", "reliance digital"], "Shopping"),
    (["uber", "ola", "rapido", "metro", "irctc", "railway", "makemytrip",
      "goibibo", "cleartrip", "yatra", "indigo", "air india", "spicejet",
      "vistara", "bus", "cab"], "Travel"),
    (["petrol", "diesel", "fuel", "hp pump", "bharat petroleum", "indian oil",
      "shell", "bpcl", "hpcl", "iocl"], "Fuel"),
    (["netflix", "hotstar", "prime video", "spotify", "youtube", "disney",
      "zee5", "sony liv", "jio cinema", "subscription"], "Subscription"),
    (["electricity", "bescom", "tata power", "adani", "torrent power",
      "light bill", "water", "gas", "lpg", "pipeline"], "Utilities"),
    (["airtel", "jio", "vodafone", "vi ", "bsnl", "mobile", "recharge",
      "broadband", "wifi", "internet", "act fibernet"], "Telecom"),
    (["lic", "insurance", "icici pru", "hdfc life", "sbi life", "max life",
      "star health", "bajaj allianz", "policy", "premium"], "Insurance"),
    (["hospital", "doctor", "medical", "pharma", "medicine", "apollo",
      "medplus", "netmeds", "practo", "diagnostic", "lab", "pathology",
      "clinic", "health"], "Medical"),
    (["rent", "house rent", "pg rent", "maintenance", "society",
      "association"], "Housing"),
    (["emi", "loan", "equated monthly", "home loan", "car loan",
      "personal loan"], "EMI Payment"),
    (["salary", "wages", "payroll", "stipend"], "Salary"),
    (["interest", "int.", "fd interest", "rd interest",
      "savings interest"], "Interest"),
    (["dividend", "div."], "Dividend"),
    (["atm", "cash withdrawal", "neft", "rtgs", "imps", "upi",
      "transfer"], "Transfer"),
    (["tax", "tds", "gst", "income tax", "advance tax",
      "self assessment"], "Tax"),
    (["education", "school", "college", "university", "tuition", "course",
      "exam", "udemy", "coursera"], "Education"),
    (["gym", "fitness", "sports", "movie", "pvr", "inox", "bookmyshow",
      "entertainment", "gaming"], "Entertainment"),
    (["donation", "charity", "ngo"], "Donation") ]

/-- The learned-rule confidence formula
`Math.min(0.95, 0.7 + hit_count * 0.05)` (line 554). -/
def ruleConfidence (hitCount : Nat) : ℚ :=
  min (95 / 100) (7 / 10 + (hitCount : ℚ) * (5 / 100))

/-- Does a learned rule match the lower-cased description
(`desc.includes(rule.pattern.toLowerCase())`, line 550)? -/
def ruleMatches (desc : String) (r : RuleRow) : Bool :=
  jsIncludes desc (jsToLower r.pattern)

/-- A classified candidate: the raw fields plus the suggestion columns
staged for review. -/
structure ClassifiedTx where
  tx : RawTx
  category : String
  debitAcc : Option Nat
  creditAcc : Option Nat
  confidence : ℚ
deriving Repr, DecidableEq

/-- The per-candidate classifier body (lines 541–598): learned rules in
the given order first, then the default table, then `Uncategorized`;
finally the source-account/category account resolution. -/
def classifyTx (rules : List RuleRow) (accounts : List Account)
    (sourceAccount : Option Account) (tx : RawTx) : ClassifiedTx :=
  let desc := jsToLower tx.description
  let step1 : String × Option Nat × Option Nat × ℚ :=
    match rules.find? (ruleMatches desc) with
    | some r => (r.category, r.debitAcc, r.creditAcc, ruleConfidence r.hitCount)
    | none => ("Uncategorized", none, none, 0)
  let step2 : String × Option Nat × Option Nat × ℚ :=
    if step1.1 == "Uncategorized" then
      match defaultRules.find? (fun dr => dr.1.any (fun p => jsIncludes desc p)) with
      | some dr => (dr.2, step1.2.1, step1.2.2.1, 1 / 2)
      | none => step1
    else step1
  let cat := step2.1
  let resolved : Option Nat × Option Nat :=
    match sourceAccount with
    | none => (step2.2.1, step2.2.2.1)
    | some sa =>
      if tx.ttype == "debit" then
        let credit := match step2.2.2.1 with | some c => some c | none => some sa.id
        let debit :=
          match step2.2.1 with
          | some d => some d
          | none =>
            (accounts.find? (fun a =>
              a.atype == "Expense"
                && jsIncludes (jsToLower a.name) (jsToLower cat))).map (·.id)
        (debit, credit)
      else
        let debit := match step2.2.1 with | some d => some d | none => some sa.id
        let credit :=
          match step2.2.2.1 with
          | some c => some c
          | none =>
            (accounts.find? (fun a =>
              a.atype == "Income"
                && jsIncludes (jsToLower a.name) (jsToLower cat))).map (·.id)
        (debit, credit)
  ⟨tx, cat, resolved.1, resolved.2, step2.2.2.2⟩

/-- `autoClassify` (lines 499–599): fetch the owner's rules sorted by
descending hit count and the owner's accounts, resolve the source
account by id, and classify every candidate. -/
def autoClassify (db : DB) (u : Nat) (txs : List RawTx)
    (sourceAccountId : Option Nat) : List ClassifiedTx :=
  let rules := fetchRules db.rules u
  let accounts := db.accounts.filter (fun a => a.user == u)
  let sourceAccount :=
    match sourceAccountId with
    | none => none
    | some said => accounts.find? (fun a => a.id == said)
  txs.map (classifyTx rules accounts sourceAccount)

/-! Staged-review routes and the confirm committer
(src/unnamed/part_002 lines 682–907). -/

/-- `GET /staged` row ordering `ORDER BY s.date ASC, s.id ASC`
(strictly-before form; ids are unique so ties are immaterial). -/
def stagedBefore (a b : StagedRow) : Bool :=
  a.date < b.date || (a.date == b.date && a.id < b.id)

/-- One row of the `GET /staged` response: the staged row joined with
the display names/types of the suggested accounts (`LEFT JOIN accounts`
on the account id alone). -/
structure StagedView where
  row : StagedRow
  debitName : Option String
  debitType : Option String
  creditName : Option String
  creditType : Option String
deriving Repr, DecidableEq

/-- `GET /staged` (lines 682–707): the caller's `pending` rows,
optionally one batch, joined with account display names, ordered by
date then id. -/
def listStaged (db : DB) (u : Nat) (batch : Option String) : List StagedView :=
  let rows := db.staged.filter fun r =>
    r.user == u && r.status == "pending"
      && (match batch with | none => true | some b => r.batch == b)
  (sortBy stagedBefore rows).map fun (r : StagedRow) =>
    let da : Option Account := match r.debitAcc with
      | none => none
      | some i => db.accounts.find? (fun a => a.id == i)
    let ca : Option Account := match r.creditAcc with
      | none => none
      | some i => db.accounts.find? (fun a => a.id == i)
    ⟨r, da.map (·.name), da.map (·.atype), ca.map (·.name), ca.map (·.atype)⟩

/-- The `PUT /staged/:id` request body: `none` = field absent
(`undefined`); for the two account fields a present falsy value has
already been coerced to `null` by `|| null`, hence the nested option. -/
structure EditReq where
  category : Option String := none
  debitAcc : Option (Option Nat) := none
  creditAcc : Option (Option Nat) := none
  ttype : Option String := none
  description : Option String := none
  amount : Option ℚ := none
  status : Option String := none
deriving Repr, DecidableEq

/-- Is at least one updatable field present? -/
def EditReq.hasFields (e : EditReq) : Bool :=
  e.category.isSome || e.debitAcc.isSome || e.creditAcc.isSome
    || e.ttype.isSome || e.description.isSome || e.amount.isSome || e.status.isSome

/-- Apply the present fields of an edit request to a row. -/
def applyEdit (e : EditReq) (r : StagedRow) : StagedRow :=
  { r with
    category := e.category.getD r.category
    debitAcc := e.debitAcc.getD r.debitAcc
    creditAcc := e.creditAcc.getD r.creditAcc
    ttype := e.ttype.getD r.ttype
    description := e.description.getD r.description
    amount := e.amount.getD r.amount
    status := e.status.getD r.status }

/-- `PUT /staged/:id` (lines 710–743): update the row with the given id
owned by the caller; the response is the updated row (`none` models the
400/404 responses, under which nothing changes). -/
def editStaged (db : DB) (u : Nat) (rowId : Nat) (e : EditReq) :
    Option StagedRow × DB :=
  if !e.hasFields then (none, db)
  else
    let hit (r : StagedRow) : Bool := r.id == rowId && r.user == u
    let staged' := db.staged.map (fun r => if hit r then applyEdit e r else r)
    match (staged'.filter hit).head? with
    | none => (none, db)
    | some r => (some r, { db with staged := staged' })

/-- The `PUT /staged-bulk` update block.  The source guards each field
with JS truthiness (`if (updates.suggested_category)`), so a present
empty string does not count; account ids are modelled as positive. -/
structure BulkReq where
  category : Option String := none
  debitAcc : Option Nat := none
  creditAcc : Option Nat := none
  status : Option String := none
  ttype : Option String := none
deriving Repr, DecidableEq

/-- JS truthiness of an optional string. -/
def strTruthy : Option String → Bool
  | none => false
  | some s => s != ""

/-- Does the bulk request carry at least one truthy field? -/
def BulkReq.hasFields (b : BulkReq) : Bool :=
  strTruthy b.category || b.debitAcc.isSome || b.creditAcc.isSome
    || strTruthy b.status || strTruthy b.ttype

/-- Apply the truthy fields of a bulk request to a row. -/
def applyBulk (bq : BulkReq) (r : StagedRow) : StagedRow :=
  { r with
    category := if strTruthy bq.category then bq.category.getD r.category else r.category
    debitAcc := match bq.debitAcc with | some d => some d | none => r.debitAcc
    creditAcc := match bq.creditAcc with | some c => some c | none => r.creditAcc
    status := if strTruthy bq.status then bq.status.getD r.status else r.status
    ttype := if strTruthy bq.ttype then bq.ttype.getD r.ttype else r.ttype }

/-- One `PUT /staged-bulk` iteration (per requested id): when at least
one truthy field exists, update the caller's row with that id and count
the id (counted whether or not a row matched, as in the source). -/
def bulkStep (u : Nat) (bq : BulkReq) (acc : Nat × DB) (i : Nat) : Nat × DB :=
  if bq.hasFields then
    let staged' := acc.2.staged.map fun r =>
      if r.id == i && r.user == u then applyBulk bq r else r
    (acc.1 + 1, { acc.2 with staged := staged' })
  else acc

/-- `PUT /staged-bulk` (lines 746–774): the update loop over the
requested ids. -/
def bulkEditStaged (db : DB) (u : Nat) (ids : List Nat) (bq : BulkReq) :
    Nat × DB :=
  ids.foldl (bulkStep u bq) (0, db)

/-- The staged selection of `POST /confirm` (lines 783–789):
non-`rejected` rows of the caller, optionally one batch. -/
def selectStaged (db : DB) (u : Nat) (batch : Option String) : List StagedRow :=
  db.staged.filter fun r =>
    r.user == u && r.status != "rejected"
      && (match batch with | none => true | some b => r.batch == b)

/-- The duplicate probe (lines 805–808): same owner, date, amount and
description already in the ledger. -/
def dupExists (ledger : List LedgerTx) (u : Nat) (r : StagedRow) : Bool :=
  ledger.any fun t =>
    t.user == u && t.date == r.date && t.amount == r.amount
      && t.description == r.description

/-- The ledger row written on confirm (lines 815–819). -/
def mkTx (u : Nat) (r : StagedRow) (d c : Nat) : LedgerTx :=
  ⟨u, r.date, r.amount, r.description, d, c, r.category⟩

/-- The schema's CHECK constraints on `transactions`
(src/schema.sql: `amount > 0` and `debit_account_id != credit_account_id`):
an insert violating either fails, which the per-row `try` of the confirm
loop records as an error. -/
def insertViolates (r : StagedRow) (d c : Nat) : Bool :=
  r.amount ≤ 0 || d == c

/-- The rule pattern derived from a description (lines 824–826): strip
non-alphabetic characters to spaces, split on whitespace, keep tokens
longer than two characters, take the first four, join and lower-case. -/
def patternOf (desc : String) : String :=
  let cleaned := String.mk (desc.toList.map fun c =>
    if c.isAlpha || isSpaceJS c then c else ' ')
  let words := ((splitBy isSpaceJS (jsTrim cleaned).toList).map String.mk).filter
    fun w => 2 < w.length
  jsToLower (String.intercalate " " (words.take 4))

/-- The rule upsert (lines 829–838): insert with `hit_count = 1`, or on
an existing `(user, pattern)` row overwrite category and accounts and
increment `hit_count` (`(user_id, pattern)` is UNIQUE, so at most one
row matches). -/
def upsertRule (rules : List RuleRow) (u : Nat) (p : String) (cat : String)
    (d c : Nat) : List RuleRow :=
  if rules.any (fun r => r.user == u && r.pattern == p) then
    rules.map fun r =>
      if r.user == u && r.pattern == p then
        { r with category := cat, debitAcc := some d, creditAcc := some c,
                 hitCount := r.hitCount + 1 }
      else r
  else rules ++ [⟨u, p, cat, some d, some c, 1⟩]

/-- Rule learning after a successful insert (lines 822–841): only for a
truthy description and a category other than `Uncategorized`, and only
when the derived pattern has length at least 3. -/
def learnRule (rules : List RuleRow) (u : Nat) (r : StagedRow) (d c : Nat) :
    List RuleRow :=
  if r.description != "" && r.category != "Uncategorized" then
    let p := patternOf r.description
    if 3 ≤ p.length then upsertRule rules u p r.category d c else rules
  else rules

/-- Loop state of the confirm committer: the evolving ledger and rule
corpus plus the imported/skipped counters and the error list (errors
recorded by staged-row id). -/
structure ConfirmSt where
  ledger : List LedgerTx
  rules : List RuleRow
  imported : Nat
  skipped : Nat
  errors : List Nat
deriving Repr, DecidableEq

/-- One iteration of the confirm loop (lines 797–846): skip on a missing
account, skip on a duplicate, record an error when the insert violates a
ledger CHECK constraint, otherwise insert and learn. -/
def confirmStep (u : Nat) (st : ConfirmSt) (r : StagedRow) : ConfirmSt :=
  match r.debitAcc, r.creditAcc with
  | some d, some c =>
    if dupExists st.ledger u r then { st with skipped := st.skipped + 1 }
    else if insertViolates r d c then { st with errors := st.errors ++ [r.id] }
    else
      { st with
        ledger := st.ledger ++ [mkTx u r d c]
        imported := st.imported + 1
        rules := learnRule st.rules u r d c }
  | _, _ => { st with skipped := st.skipped + 1 }

/-- The confirm loop over the selected staged rows. -/
def confirmLoop (u : Nat) (st : ConfirmSt) (rows : List StagedRow) : ConfirmSt :=
  rows.foldl (confirmStep u) st

/-- The staged cleanup after the loop (lines 848–854): with a batch,
delete all of the caller's rows of that batch; without one, delete the
caller's non-`rejected` rows. -/
def cleanupStaged (staged : List StagedRow) (u : Nat) (batch : Option String) :
    List StagedRow :=
  match batch with
  | some b => staged.filter fun r => !(r.user == u && r.batch == b)
  | none => staged.filter fun r => !(r.user == u && r.status != "rejected")

/-- The balance recomputation (lines 857–866): for each of the caller's
accounts, the debit sum minus the credit sum over every ledger row
referencing the account, plus the opening balance. -/
def recomputeBalances (accounts : List Account) (ledger : List LedgerTx)
    (u : Nat) : List Account :=
  accounts.map fun a =>
    if a.user == u then
      { a with calculatedBalance :=
          ((ledger.filter (fun t => t.debitAcc == a.id)).map (·.amount)).sum
            - ((ledger.filter (fun t => t.creditAcc == a.id)).map (·.amount)).sum
            + a.openingBalance }
    else a

/-- The `POST /confirm` response body (imported and skipped counts and
the first five errors). -/
structure ConfirmResult where
  imported : Nat
  skipped : Nat
  errors : List Nat
deriving Repr, DecidableEq

/-- `POST /confirm` (lines 777–879): select, loop, clean up, recompute;
`none` models the 400 "No transactions to confirm" response, under
which nothing changes. -/
def confirmImport (db : DB) (u : Nat) (batch : Option String) :
    Option ConfirmResult × DB :=
  let sel := selectStaged db u batch
  if sel.isEmpty then (none, db)
  else
    let fin := confirmLoop u ⟨db.ledger, db.rules, 0, 0, []⟩ sel
    let staged' := cleanupStaged db.staged u batch
    let accounts' := recomputeBalances db.accounts fin.ledger u
    (some ⟨fin.imported, fin.skipped, fin.errors.take 5⟩,
      ⟨staged', fin.rules, fin.ledger, accounts'⟩)

/-- `DELETE /staged` (lines 882–894): delete the caller's staged rows,
all or one batch. -/
def clearStaged (db : DB) (u : Nat) (batch : Option String) : DB :=
  match batch with
  | some b => { db with staged := db.staged.filter fun r => !(r.user == u && r.batch == b) }
  | none => { db with staged := db.staged.filter fun r => !(r.user == u) }

/-- `GET /rules` (lines 897–907): the caller's rules ordered by
descending hit count, capped at 200. -/
def listRules (db : DB) (u : Nat) : List RuleRow :=
  (sortBy hitBefore (db.rules.filter (fun r => r.user == u))).take 200

/-! Supporting definitions for the verification below: projections of
the state onto one owner, agreement relations, and concrete inputs used
by witnesses and counterexamples. -/

/-- A trivial instance of the `new Date` fallback (used only to
instantiate closed statements; the inputs below never reach it). -/
def nullFallback : String → Option String := fun _ => none

/-- Has a staged row already been dealt with by the confirm loop, as
far as the ledger is concerned?  (Missing account, duplicate in the
current ledger, or a CHECK-violating insert that fails again.) -/
def rowHandled (u : Nat) (L : List LedgerTx) (r : StagedRow) : Bool :=
  match r.debitAcc, r.creditAcc with
  | some d, some c => dupExists L u r || insertViolates r d c
  | _, _ => true

/-- One owner's staged rows. -/
def stagedOf (u : Nat) (l : List StagedRow) : List StagedRow :=
  l.filter (fun r => r.user == u)

/-- One owner's category rules. -/
def rulesOf (u : Nat) (l : List RuleRow) : List RuleRow :=
  l.filter (fun r => r.user == u)

/-- Two states agree for owner `u` when they hold the same rows for `u`
and the same shared ledger and accounts — they may differ arbitrarily
in other owners' staged rows and rules. -/
def Agree (u : Nat) (s1 s2 : DB) : Prop :=
  stagedOf u s1.staged = stagedOf u s2.staged
    ∧ rulesOf u s1.rules = rulesOf u s2.rules
    ∧ s1.ledger = s2.ledger
    ∧ s1.accounts = s2.accounts

/-- Agreement of two confirm-loop states for owner `u`. -/
def StAgree (u : Nat) (a b : ConfirmSt) : Prop :=
  a.ledger = b.ledger ∧ rulesOf u a.rules = rulesOf u b.rules
    ∧ a.imported = b.imported ∧ a.skipped = b.skipped ∧ a.errors = b.errors

/-- A credit-card statement document (positioned items) whose table has
a header row: a bank line containing `Credit Card`, the header, and one
data row whose deposit cell is a salary credit with no refund marker. -/
def ccHeaderItems : List PItem :=
  [⟨"ABC Bank Credit Card Statement", 10, 50, 1⟩,
   ⟨"Date", 10, 100, 1⟩, ⟨"Narration", 60, 100, 1⟩, ⟨"Withdrawal", 200, 100, 1⟩,
   ⟨"Deposit", 260, 100, 1⟩, ⟨"Balance", 320, 100, 1⟩,
   ⟨"05/01/2024", 10, 150, 1⟩, ⟨"SALARY", 60, 150, 1⟩,
   ⟨"5000.00", 260, 150, 1⟩, ⟨"8000.00", 320, 150, 1⟩]

/-- A staged row whose description has no alphabetic token longer than
two characters, so no rule pattern of length ≥ 3 can be derived. -/
def shortWordsRow : StagedRow :=
  ⟨1, 1, "b1", "2024-01-05", "AB CD", 100, "debit", none, "Food",
   some 1, some 2, 0, "pending", "stmt.csv"⟩

/-- A state holding only `shortWordsRow`. -/
def shortWordsDB : DB := ⟨[shortWordsRow], [], [], []⟩

/-- A rejected staged row in batch `b1`. -/
def rejectedRow : StagedRow :=
  ⟨2, 1, "b1", "2024-01-06", "Declined Item", 50, "debit", none, "Food",
   none, none, 0, "rejected", "stmt.csv"⟩

/-- A state with one committable and one rejected row in batch `b1`. -/
def rejectedDB : DB := ⟨[shortWordsRow, rejectedRow], [], [], []⟩

/-- A pending staged row for owner 1 used in the isolation witness. -/
def aliceRow : StagedRow :=
  ⟨10, 1, "bA", "2024-02-01", "Coffee Shop Visit", 150, "debit", none,
   "Food", some 3, some 4, 0, "pending", "a.csv"⟩

/-- A pending staged row for owner 2 (a different owner). -/
def bobRow : StagedRow :=
  ⟨11, 2, "bB", "2024-02-02", "Hardware Store", 80, "debit", none,
   "Shopping", some 5, some 6, 0, "pending", "b.csv"⟩

/-- A state containing only owner 1's row. -/
def aliceOnlyDB : DB := ⟨[aliceRow], [], [], []⟩

/-- The same state with owner 2's row and a rule of owner 2 added. -/
def aliceBobDB : DB :=
  ⟨[aliceRow, bobRow], [⟨2, "hardware store", "Shopping", some 5, some 6, 2⟩], [], []⟩

/-- The header row of `ccHeaderItems` as reconstructed. -/
def ccHeaderRow : Row :=
  ⟨[⟨"Date", 10, 100, 1⟩, ⟨"Narration", 60, 100, 1⟩, ⟨"Withdrawal", 200, 100, 1⟩,
    ⟨"Deposit", 260, 100, 1⟩, ⟨"Balance", 320, 100, 1⟩],
   "Date  Narration  Withdrawal  Deposit  Balance"⟩

/-- A document with no header row (forces the line-based fallback). -/
def noHeaderItems : List PItem :=
  [⟨"05/01/2024  COFFEE  150.00  900.00", 10, 20, 1⟩]

/-- `YYYY-MM-DD` shape: ten characters, digits around two hyphens. -/
def isNormalizedDate (s : String) : Bool :=
  match s.toList with
  | [y1, y2, y3, y4, h1, m1, m2, h2, d1, d2] =>
    y1.isDigit && y2.isDigit && y3.isDigit && y4.isDigit && h1 == '-'
      && m1.isDigit && m2.isDigit && h2 == '-' && d1.isDigit && d2.isDigit
  | _ => false

/-- A staged row whose description yields the pattern
`swiggy order bangalore`. -/
def swiggyRow : StagedRow :=
  ⟨5, 1, "b2", "2024-03-01", "Swiggy Order Bangalore", 300, "debit", none,
   "Food", some 1, some 2, 0, "pending", "s.csv"⟩

/-- A state where confirming `swiggyRow` upserts onto an existing rule
for the same pattern. -/
def swiggyDB : DB :=
  ⟨[swiggyRow], [⟨1, "swiggy order bangalore", "Dining", some 9, some 8, 3⟩], [], []⟩

/-- Exactly two digit characters. -/
def twoDigitString (s : String) : Bool :=
  match s.toList with
  | [a, b] => a.isDigit && b.isDigit
  | _ => false

/-! ## Theorems -/

set_option maxRecDepth 2000

/-- Splitting a conjunction filter. -/
theorem filter_and_left {α : Type} (p q : α → Bool) (l : List α) :
    l.filter (fun a => p a && q a) = (l.filter p).filter q := by
  induction l with
  | nil => rfl
  | cons a t ih =>
    simp only [List.filter_cons]
    cases hp : p a <;> cases hq : q a <;> simp [hp, hq, ih]

/-- Splitting a conjunction filter, outer conjunct first. -/
theorem filter_and_right {α : Type} (p q : α → Bool) (l : List α) :
    l.filter (fun a => p a && q a) = (l.filter q).filter p := by
  have : (fun a => p a && q a) = (fun a => q a && p a) :=
    funext fun a => Bool.and_comm _ _
  rw [this, filter_and_left]

/-- `any` over a conjunction as `any` over a filter. -/
theorem any_and_filter {α : Type} (p q : α → Bool) (l : List α) :
    l.any (fun a => p a && q a) = (l.filter p).any q :=
  (List.any_filter).symm

/-- A filter commutes past a map that preserves the filtered property. -/
theorem filter_map_comm {α : Type} (f : α → α) (p : α → Bool)
    (hp : ∀ a, p (f a) = p a) (l : List α) :
    (l.map f).filter p = (l.filter p).map f := by
  induction l with
  | nil => rfl
  | cons a t ih =>
    simp only [List.map_cons, List.filter_cons, hp a]
    cases hq : p a <;> simp [ih]

/-- A map that fixes every element satisfying `p` (and never creates
one) is invisible to `filter p`. -/
theorem filter_map_invisible {α : Type} (f : α → α) (p : α → Bool)
    (hid : ∀ a, p a = true → f a = a) (hp : ∀ a, p (f a) = p a) (l : List α) :
    (l.map f).filter p = l.filter p := by
  rw [filter_map_comm f p hp]
  have : ∀ a ∈ l.filter p, f a = a := by
    intro a ha
    exact hid a (List.of_mem_filter ha)
  calc (l.filter p).map f = (l.filter p).map id := List.map_congr_left this
    _ = l.filter p := List.map_id _

/-- Filtering by `q` first is invisible when `p` entails `q`. -/
theorem filter_entails_keep {α : Type} (p q : α → Bool)
    (h : ∀ a, p a = true → q a = true) (l : List α) :
    (l.filter q).filter p = l.filter p := by
  induction l with
  | nil => rfl
  | cons a t ih =>
    simp only [List.filter_cons]
    cases hq : q a
    · have hpa : p a = false := by
        cases hpa : p a
        · rfl
        · have := h a hpa; rw [hq] at this; exact Bool.noConfusion this
      simp [hpa, ih]
    · simp only [List.filter_cons]
      cases hp : p a <;> simp [hp, ih]

/-- Appending distributes over a filter. -/
theorem filter_append' {α : Type} (p : α → Bool) (l1 l2 : List α) :
    (l1 ++ l2).filter p = l1.filter p ++ l2.filter p := by
  simp [List.filter_append]

/-- C8: the amount normalizer evaluates `parseAmount("1,23,456.78")` to
`123456.78` (the South-Asian grouping commas are all removed) and
`parseAmount("")` to `0`; its result is always the non-negative absolute
value, and any input whose stripped remainder is non-numeric yields
`0`. -/
theorem parseAmount_normalizer_facts :
    parseAmount "1,23,456.78" = 123456.78
      ∧ parseAmount "" = 0
      ∧ (∀ s : String, 0 ≤ parseAmount s)
      ∧ (∀ s : String,
          jsParseFloat (removeCommas (stripCurrency s)) = none → parseAmount s = 0) := by
  refine ⟨?_, rfl, ?_, ?_⟩
  · have h1 : (123456.78 : ℚ) = Rat.divInt 12345678 100 := by
      rw [Rat.divInt_eq_div]; norm_num
    rw [h1]
    decide
  · intro s
    unfold parseAmount
    split
    · exact le_refl 0
    · split
      · exact le_refl 0
      · unfold jsAbs
        split <;> linarith
  · intro s h
    unfold parseAmount
    split
    · rfl
    · rw [h]

/-- Witness for C8: the implication hypothesis is dischargeable — the
non-numeric input `"abc"` yields zero. -/
theorem parseAmount_normalizer_facts_witness :
    jsParseFloat (removeCommas (stripCurrency "abc")) = none ∧ parseAmount "abc" = 0 :=
  ⟨by decide, parseAmount_normalizer_facts.2.2.2 "abc" (by decide)⟩

/-- Components produced by `matchNumericDMY` are digit runs of the
regex-mandated lengths. -/
theorem matchNumericDMY_shape {s : String} {d m y : List Char}
    (h : matchNumericDMY s = some (d, m, y)) :
    (∀ c ∈ d, c.isDigit = true) ∧ 1 ≤ d.length ∧ d.length ≤ 2
      ∧ (∀ c ∈ m, c.isDigit = true) ∧ 1 ≤ m.length ∧ m.length ≤ 2
      ∧ (∀ c ∈ y, c.isDigit = true) := by
  simp only [matchNumericDMY, List.span_eq_take_drop] at h
  repeat' split at h
  all_goals try exact Option.noConfusion h
  rw [Option.some.injEq, Prod.mk.injEq, Prod.mk.injEq] at h
  obtain ⟨hd, hm, hy⟩ := h
  subst hd hm hy
  simp only [Bool.and_eq_true, decide_eq_true_eq] at *
  refine ⟨fun c hc => List.mem_takeWhile_imp hc, ?_, ?_,
    fun c hc => List.mem_takeWhile_imp hc, ?_, ?_,
    fun c hc => List.mem_takeWhile_imp hc⟩ <;> omega

/-- Components produced by `matchMonDMY`: the day is a digit run of
length 1–2 and the year a digit run. -/
theorem matchMonDMY_shape {s : String} {d a y : List Char}
    (h : matchMonDMY s = some (d, a, y)) :
    (∀ c ∈ d, c.isDigit = true) ∧ 1 ≤ d.length ∧ d.length ≤ 2
      ∧ (∀ c ∈ y, c.isDigit = true) := by
  simp only [matchMonDMY, List.span_eq_take_drop] at h
  repeat' split at h
  all_goals try exact Option.noConfusion h
  rw [Option.some.injEq, Prod.mk.injEq, Prod.mk.injEq] at h
  obtain ⟨hd, hm, hy⟩ := h
  subst hd hm hy
  simp only [Bool.and_eq_true, decide_eq_true_eq] at *
  refine ⟨fun c hc => List.mem_takeWhile_imp hc, ?_, ?_,
    fun c hc => List.mem_takeWhile_imp hc⟩ <;> omega

/-- `pad2` of a digit run of length 1–2 is exactly two digits. -/
theorem pad2_chars {ds : List Char} (h1 : ∀ c ∈ ds, c.isDigit = true)
    (h2 : 1 ≤ ds.length) (h3 : ds.length ≤ 2) :
    ∃ a b, (pad2 ds).toList = [a, b] ∧ a.isDigit = true ∧ b.isDigit = true := by
  match ds, h2, h3 with
  | [a], _, _ =>
    exact ⟨'0', a, by simp [pad2, String.toList], by decide, h1 a (by simp)⟩
  | [a, b], _, _ =>
    exact ⟨a, b, by simp [pad2, String.toList], h1 a (by simp), h1 b (by simp)⟩

/-- Helper: the two-digit-year outputs of `parseDate` are normalized
`YYYY-MM-DD` strings. -/
theorem isNormalizedDate_build {c1 c2 : Char} {y m d : List Char}
    (hc1 : c1.isDigit = true) (hc2 : c2.isDigit = true)
    (hy : ∀ c ∈ y, c.isDigit = true) (hylen : y.length = 2)
    (hm : ∀ c ∈ m, c.isDigit = true) (hm1 : 1 ≤ m.length) (hm2 : m.length ≤ 2)
    (hd : ∀ c ∈ d, c.isDigit = true) (hd1 : 1 ≤ d.length) (hd2 : d.length ≤ 2) :
    isNormalizedDate (String.mk [c1, c2] ++ String.mk y ++ "-" ++ pad2 m ++ "-" ++ pad2 d)
      = true := by
  obtain ⟨m1, m2, hmeq, hm1d, hm2d⟩ := pad2_chars hm hm1 hm2
  obtain ⟨d1, d2, hdeq, hd1d, hd2d⟩ := pad2_chars hd hd1 hd2
  match y, hylen with
  | [y1, y2], _ =>
    have hy1 := hy y1 (by simp)
    have hy2 := hy y2 (by simp)
    have hmeq' : (pad2 m).data = [m1, m2] := hmeq
    have hdeq' : (pad2 d).data = [d1, d2] := hdeq
    have hdash : ("-" : String) = String.mk ['-'] := rfl
    simp only [isNormalizedDate, String.toList, hdash, String.data_append]
    simp [hmeq', hdeq', hc1, hc2, hy1, hy2, hm1d, hm2d, hd1d, hd2d]

/-- The element found by `findFirstIdx` satisfies the predicate. -/
theorem findFirstIdx_some_sat {α : Type} (p : α → Bool) :
    ∀ {l : List α} {i : Nat} {a : α},
      findFirstIdx p l = some i → l.get? i = some a → p a = true := by
  intro l
  induction l with
  | nil => intro i a h; exact Option.noConfusion h
  | cons x t ih =>
    intro i a h hget
    unfold findFirstIdx at h
    by_cases hp : p x
    · rw [if_pos hp] at h
      cases h
      rw [List.get?_cons_zero, Option.some.injEq] at hget
      rwa [hget] at hp
    · rw [if_neg hp] at h
      match hfi : findFirstIdx p t with
      | none => rw [hfi] at h; exact Option.noConfusion h
      | some j =>
        rw [hfi] at h
        simp only [Option.map_some', Option.some.injEq] at h
        subst h
        rw [List.get?_cons_succ] at hget
        exact ih hfi hget

/-- Elements before the index found by `findFirstIdx` fail the
predicate. -/
theorem findFirstIdx_earlier_not {α : Type} (p : α → Bool) :
    ∀ {l : List α} {i : Nat}, findFirstIdx p l = some i →
      ∀ j, j < i → ∀ a, l.get? j = some a → p a = false := by
  intro l
  induction l with
  | nil => intro i h; exact Option.noConfusion h
  | cons x t ih =>
    intro i h j hj a hget
    unfold findFirstIdx at h
    by_cases hp : p x
    · rw [if_pos hp] at h
      cases h
      exact absurd hj (Nat.not_lt_zero j)
    · rw [if_neg hp] at h
      match hfi : findFirstIdx p t with
      | none => rw [hfi] at h; exact Option.noConfusion h
      | some k =>
        rw [hfi] at h
        simp only [Option.map_some', Option.some.injEq] at h
        subst h
        match j with
        | 0 =>
          rw [List.get?_cons_zero, Option.some.injEq] at hget
          subst hget
          exact Bool.of_not_eq_true hp
        | j' + 1 =>
          rw [List.get?_cons_succ] at hget
          exact ih hfi j' (Nat.lt_of_succ_lt_succ hj) a hget

/-- Every month code of the abbreviation table is two digits. -/
theorem monthsTable_twoDigit : monthsTable.all (fun p => twoDigitString p.2) = true := by
  decide

/-- Shape of a normalized date assembled from a century prefix, a
two-digit year, a two-digit month string and a padded day. -/
theorem isNormalizedDate_build_mon {c1 c2 : Char} {y d : List Char} {mon : String}
    (hc1 : c1.isDigit = true) (hc2 : c2.isDigit = true)
    (hy : ∀ c ∈ y, c.isDigit = true) (hylen : y.length = 2)
    (hmon : twoDigitString mon = true)
    (hd : ∀ c ∈ d, c.isDigit = true) (hd1 : 1 ≤ d.length) (hd2 : d.length ≤ 2) :
    isNormalizedDate (String.mk [c1, c2] ++ String.mk y ++ "-" ++ mon ++ "-" ++ pad2 d)
      = true := by
  obtain ⟨d1, d2, hdeq, hd1d, hd2d⟩ := pad2_chars hd hd1 hd2
  unfold twoDigitString at hmon
  split at hmon
  case h_1 m1 m2 heq =>
    have hmeq' : mon.data = [m1, m2] := heq
    have hdeq' : (pad2 d).data = [d1, d2] := hdeq
    have hdash : ("-" : String) = String.mk ['-'] := rfl
    match y, hylen with
    | [y1, y2], _ =>
      have hy1 := hy y1 (by simp)
      have hy2 := hy y2 (by simp)
      simp only [Bool.and_eq_true] at hmon
      simp only [isNormalizedDate, String.toList, hdash, String.data_append]
      simp [hmeq', hdeq', hc1, hc2, hy1, hy2, hmon.1, hmon.2, hd1d, hd2d]
  case h_2 => exact Bool.noConfusion hmon

/-- C7 (amended): a 2-digit year in the numeric day/month/year form
maps to `19xx` when greater than 50 and to `20xx` otherwise, and the
result is a normalized `YYYY-MM-DD` string; but in the `day Mon year`
form a 2-digit year always maps to `20xx` (still normalized). -/
theorem parseDate_two_digit_year_mapping (fb : String → Option String) (s : String)
    (d m y : List Char) :
    (s ≠ "" → matchNumericDMY (jsTrim s) = some (d, m, y) → y.length = 2 →
      parseDate fb s
        = some ((if 50 < digitsToNat y then "19" ++ String.mk y else "20" ++ String.mk y)
            ++ "-" ++ pad2 m ++ "-" ++ pad2 d)
      ∧ isNormalizedDate
          ((if 50 < digitsToNat y then "19" ++ String.mk y else "20" ++ String.mk y)
            ++ "-" ++ pad2 m ++ "-" ++ pad2 d) = true)
    ∧ (s ≠ "" → matchNumericDMY (jsTrim s) = none → matchISOYMD (jsTrim s) = none →
        matchMonDMY (jsTrim s) = some (d, m, y) → y.length = 2 →
        ∀ mon, monthsTable.lookup (jsToLower (String.mk m)) = some mon →
        parseDate fb s = some ("20" ++ String.mk y ++ "-" ++ mon ++ "-" ++ pad2 d)
          ∧ isNormalizedDate ("20" ++ String.mk y ++ "-" ++ mon ++ "-" ++ pad2 d) = true) := by
  constructor
  · intro hne hnum hy2
    obtain ⟨hdd, hd1, hd2, hmd, hm1, hm2, hyd⟩ := matchNumericDMY_shape hnum
    constructor
    · simp only [parseDate, hnum, hy2]
      rw [if_neg (by simpa using hne)]
      norm_num
    · by_cases h50 : 50 < digitsToNat y
      · rw [if_pos h50]
        exact isNormalizedDate_build (by decide) (by decide) hyd hy2 hmd hm1 hm2 hdd hd1 hd2
      · rw [if_neg h50]
        exact isNormalizedDate_build (by decide) (by decide) hyd hy2 hmd hm1 hm2 hdd hd1 hd2
  · intro hne hnum hiso hmon hy2 mon hlook
    obtain ⟨hdd, hd1, hd2, hyd⟩ := matchMonDMY_shape hmon
    have hmon2 : twoDigitString mon = true := by
      obtain ⟨l1, l2, heq, -⟩ := List.lookup_eq_some_iff.1 hlook
      have hmem : (jsToLower (String.mk m), mon) ∈ monthsTable := by
        rw [heq]; exact List.mem_append_right _ (List.mem_cons_self _ _)
      exact List.all_eq_true.1 monthsTable_twoDigit _ hmem
    constructor
    · simp only [parseDate, hnum, hiso, hmon, hlook, hy2]
      rw [if_neg (by simpa using hne)]
      norm_num
    · exact isNormalizedDate_build_mon (by decide) (by decide) hyd hy2 hmon2 hdd hd1 hd2

/-- Witness for C7's theorem: both implications fire on concrete
inputs — `"5/1/99"` normalizes to `1999-01-05` (numeric form, year
above 50) and `"15 Jan 07"` to `2007-01-15` (month-name form). -/
theorem parseDate_two_digit_year_mapping_witness :
    parseDate nullFallback "5/1/99" = some "1999-01-05"
      ∧ parseDate nullFallback "15 Jan 07" = some "2007-01-15" := by
  constructor
  · have h := (parseDate_two_digit_year_mapping nullFallback "5/1/99"
      ['5'] ['1'] ['9', '9']).1 (by decide) (by decide) (by decide)
    exact h.1.trans (by decide)
  · have h := ((parseDate_two_digit_year_mapping nullFallback "15 Jan 07"
      ['1', '5'] ['J', 'a', 'n'] ['0', '7']).2 (by decide) (by decide) (by decide)
      (by decide) (by decide)) "01" (by decide)
    exact h.1.trans (by decide)

/-- C7 counterexample: the claim demands `19xx` for two-digit years
above 50 in the `day Mon year` form as well, but the code maps
`"15 Jan 99"` to `2099-01-15`, not `1999-01-15`. -/
theorem parseDate_monForm_counterexample :
    parseDate nullFallback "15 Jan 99" = some "2099-01-15"
      ∧ parseDate nullFallback "15 Jan 99" ≠ some "1999-01-15" := by
  constructor
  · decide
  · decide

/-- C6: the page-layout reconstructor selects as header the first row
with at least 3 header-keyword hits (so a row with exactly 2 hits is
never selected, and every earlier row has fewer than 3 hits), and when
no row reaches 3 hits the extraction is the line-based fallback. -/
theorem headerDetection_spec (fb : String → Option String) (items : List PItem) :
    (∀ i r, findFirstIdx (fun r => 3 ≤ headerHits r) (mkRowsFromItems items) = some i →
        (mkRowsFromItems items).get? i = some r → 3 ≤ headerHits r)
    ∧ (∀ i j r, findFirstIdx (fun r => 3 ≤ headerHits r) (mkRowsFromItems items) = some i →
        j < i → (mkRowsFromItems items).get? j = some r → headerHits r < 3)
    ∧ (findFirstIdx (fun r => 3 ≤ headerHits r) (mkRowsFromItems items) = none →
        parsePDFItems fb items
          = parsePDFLineBased fb ((mkRowsFromItems items).map (·.text))
              (bankTypeOf (mkRowsFromItems items))) := by
  refine ⟨?_, ?_, ?_⟩
  · intro i r hfind hget
    have := findFirstIdx_some_sat _ hfind hget
    exact of_decide_eq_true this
  · intro i j r hfind hj hget
    have := findFirstIdx_earlier_not _ hfind j hj r hget
    have : ¬(3 ≤ headerHits r) := by
      intro hc
      rw [decide_eq_true hc] at this
      exact Bool.noConfusion this
    omega
  · intro hnone
    simp only [parsePDFItems, hnone]

/-- Witness for C6: on the credit-card document the selected header row
(index 1) indeed has at least three keyword hits, and on a headerless
document the result equals the line-based fallback. -/
theorem headerDetection_spec_witness :
    3 ≤ headerHits ccHeaderRow
      ∧ parsePDFItems nullFallback noHeaderItems
          = parsePDFLineBased nullFallback
              ((mkRowsFromItems noHeaderItems).map (·.text))
              (bankTypeOf (mkRowsFromItems noHeaderItems)) := by
  constructor
  · exact (headerDetection_spec nullFallback ccHeaderItems).1 1 ccHeaderRow
      (by decide) (by decide)
  · exact (headerDetection_spec nullFallback noHeaderItems).2.2 (by decide)

/-- C5 counterexample: a document detected as a credit-card statement
(`generic_cc`) whose header-anchored extraction yields an inflow
(`credit`) transaction although its row text contains no
refund/cashback/reversal/credit/payment-received marker — the
credit-card outflow default applies only in the line-based fallback,
not in the header-anchored path. -/
theorem creditCardFlip_counterexample :
    bankTypeOf (mkRowsFromItems ccHeaderItems) = "generic_cc"
      ∧ parsePDFItems nullFallback ccHeaderItems
          = [⟨"2024-01-05", "SALARY", 5000, "credit", some 8000⟩]
      ∧ markerTest "05/01/2024  SALARY  5000.00  8000.00" = false
      ∧ (mkRowsFromItems ccHeaderItems).map (·.text)
          = ["ABC Bank Credit Card Statement",
             "Date  Narration  Withdrawal  Deposit  Balance",
             "05/01/2024  SALARY  5000.00  8000.00"] :=
  ⟨by decide, by decide, by decide, by decide⟩

set_option maxHeartbeats 1600000 in
/-- C5 (amended): the refund/credit-marker direction flip for
credit-card statements applies only in the line-based fallback — there,
every produced transaction of a `_cc` document is inflow exactly when
its line matches the marker regex; the header-anchored path is
dispatched without the bank type at all, its direction coming from the
withdrawal/deposit columns. -/
theorem creditCardFlip_amended :
    (∀ (fb : String → Option String) (items : List PItem) (i : Nat),
      findFirstIdx (fun r => 3 ≤ headerHits r) (mkRowsFromItems items) = some i →
      parsePDFItems fb items
        = extractRows fb
            (buildColMap ((((mkRowsFromItems items).get? i).map (·.items)).getD []))
            ((mkRowsFromItems items).drop (i + 1)))
    ∧ (∀ (fb : String → Option String) (bt line : String) (next : Option String)
        (tx : RawTx), lineTx fb bt line next = some tx → jsIncludes bt "_cc" = true →
        (tx.ttype = "credit" ↔ markerTest line = true))
    ∧ (∀ (fb : String → Option String) (bt : String) (lines : List String)
        (tx : RawTx), tx ∈ parsePDFLineBased fb lines bt →
        ∃ p ∈ pairWithNext lines, lineTx fb bt p.1 p.2 = some tx) := by
  refine ⟨?_, ?_, ?_⟩
  · intro fb items i hfind
    simp only [parsePDFItems, hfind]
  · intro fb bt line next tx h hcc
    simp only [lineTx, hcc, if_true] at h
    repeat' split at h
    all_goals try exact Option.noConfusion h
    all_goals rw [Option.some.injEq] at h
    all_goals subst h
    all_goals simp_all
  · intro fb bt lines tx h
    exact List.mem_filterMap.1 h

/-- Witness for C5's amended theorem: the header-dispatch equation
fires on the credit-card document, and on a concrete fallback line with
a `REFUND` marker the produced transaction is inflow. -/
theorem creditCardFlip_amended_witness :
    parsePDFItems nullFallback ccHeaderItems
      = extractRows nullFallback
          (buildColMap ((((mkRowsFromItems ccHeaderItems).get? 1).map (·.items)).getD []))
          ((mkRowsFromItems ccHeaderItems).drop 2)
    ∧ ((⟨"2024-01-06", "REFUND AMAZON", 250, "credit", some 9250⟩ : RawTx).ttype = "credit"
        ↔ markerTest "06/01/2024  REFUND AMAZON  250.00  9,250.00" = true) := by
  constructor
  · exact creditCardFlip_amended.1 nullFallback ccHeaderItems 1 (by decide)
  · exact creditCardFlip_amended.2.1 nullFallback "generic_cc"
      "06/01/2024  REFUND AMAZON  250.00  9,250.00" none
      ⟨"2024-01-06", "REFUND AMAZON", 250, "credit", some 9250⟩
      (by decide) (by decide)

/-- Membership in an insertion. -/
theorem mem_insertBy {α : Type} (lt : α → α → Bool) (a x : α) :
    ∀ l : List α, x ∈ insertBy lt a l ↔ x = a ∨ x ∈ l := by
  intro l
  induction l with
  | nil => simp [insertBy]
  | cons h t ih =>
    unfold insertBy
    by_cases hlt : lt h a
    · rw [if_pos hlt]
      simp only [List.mem_cons, ih]
      tauto
    · rw [if_neg hlt]
      simp only [List.mem_cons]

/-- Inserting into a descending-hit-count list keeps it descending. -/
theorem insertBy_hit_pairwise (a : RuleRow) :
    ∀ l : List RuleRow,
      List.Pairwise (fun x y => y.hitCount ≤ x.hitCount) l →
      List.Pairwise (fun x y => y.hitCount ≤ x.hitCount) (insertBy hitBefore a l) := by
  intro l
  induction l with
  | nil => intro _; exact List.pairwise_singleton _ _
  | cons h t ih =>
    intro hp
    rw [List.pairwise_cons] at hp
    unfold insertBy
    by_cases hlt : hitBefore h a
    · rw [if_pos hlt]
      rw [List.pairwise_cons]
      refine ⟨?_, ih hp.2⟩
      intro x hx
      rcases (mem_insertBy hitBefore a x t).1 hx with rfl | hxt
      · exact Nat.le_of_lt (of_decide_eq_true hlt)
      · exact hp.1 x hxt
    · rw [if_neg hlt]
      have hha : h.hitCount ≤ a.hitCount := by
        have := of_decide_eq_false (Bool.of_not_eq_true hlt)
        omega
      rw [List.pairwise_cons]
      refine ⟨?_, List.pairwise_cons.2 hp⟩
      intro x hx
      rcases List.mem_cons.1 hx with rfl | hxt
      · exact hha
      · exact Nat.le_trans (hp.1 x hxt) hha

/-- The fetched rule list is sorted by descending hit count. -/
theorem fetchRules_sorted (rules : List RuleRow) (u : Nat) :
    List.Pairwise (fun x y => y.hitCount ≤ x.hitCount) (fetchRules rules u) := by
  unfold fetchRules
  generalize rules.filter (fun r => r.user == u) = l
  induction l with
  | nil => exact List.Pairwise.nil
  | cons h t ih => exact insertBy_hit_pairwise h _ ih

/-- C4: classification consults the owner's rules sorted by descending
hit count; the first matching rule (by case-insensitive substring)
supplies category, confidence `min(0.95, 0.7 + 0.05·hit_count)` —
0.95 exactly at `hit_count = 6` and never above 0.95 — and the
suggested accounts: a non-null rule account survives the account
resolution unchanged, and with no source account the suggestions are
exactly the rule's accounts; with no rule match, the first matching
default-table entry gives confidence 0.5; with neither,
`Uncategorized` at confidence 0. -/
theorem autoClassify_spec (rules : List RuleRow) (u : Nat)
    (accounts : List Account) (sa : Option Account) (tx : RawTx) :
    List.Pairwise (fun a b => b.hitCount ≤ a.hitCount) (fetchRules rules u)
    ∧ (∀ r, (fetchRules rules u).find? (ruleMatches (jsToLower tx.description)) = some r →
        r.category ≠ "Uncategorized" →
        (classifyTx (fetchRules rules u) accounts sa tx).category = r.category
          ∧ (classifyTx (fetchRules rules u) accounts sa tx).confidence
              = min (95 / 100) (7 / 10 + (r.hitCount : ℚ) * (5 / 100))
          ∧ (r.hitCount = 6 →
              (classifyTx (fetchRules rules u) accounts sa tx).confidence = 95 / 100)
          ∧ (∀ d, r.debitAcc = some d →
              (classifyTx (fetchRules rules u) accounts sa tx).debitAcc = some d)
          ∧ (∀ c, r.creditAcc = some c →
              (classifyTx (fetchRules rules u) accounts sa tx).creditAcc = some c)
          ∧ (sa = none →
              (classifyTx (fetchRules rules u) accounts sa tx).debitAcc = r.debitAcc
                ∧ (classifyTx (fetchRules rules u) accounts sa tx).creditAcc = r.creditAcc))
    ∧ (classifyTx (fetchRules rules u) accounts sa tx).confidence ≤ 95 / 100
    ∧ (∀ dr, (fetchRules rules u).find? (ruleMatches (jsToLower tx.description)) = none →
        defaultRules.find?
            (fun p => p.1.any (fun q => jsIncludes (jsToLower tx.description) q)) = some dr →
        (classifyTx (fetchRules rules u) accounts sa tx).category = dr.2
          ∧ (classifyTx (fetchRules rules u) accounts sa tx).confidence = 1 / 2)
    ∧ ((fetchRules rules u).find? (ruleMatches (jsToLower tx.description)) = none →
        defaultRules.find?
            (fun p => p.1.any (fun q => jsIncludes (jsToLower tx.description) q)) = none →
        (classifyTx (fetchRules rules u) accounts sa tx).category = "Uncategorized"
          ∧ (classifyTx (fetchRules rules u) accounts sa tx).confidence = 0) := by
  refine ⟨fetchRules_sorted rules u, ?_, ?_, ?_, ?_⟩
  · intro r hfind hcat
    have hbeq : (r.category == "Uncategorized") = false := by
      simp [hcat]
    refine ⟨?_, ?_, ?_, ?_, ?_, ?_⟩
    · simp [classifyTx, hfind, hbeq]
    · simp [classifyTx, hfind, hbeq, ruleConfidence]
    · intro h6
      simp [classifyTx, hfind, hbeq, ruleConfidence, h6]
      norm_num
    · intro d hd
      rcases sa with - | a
      · simp [classifyTx, hfind, hbeq, hd]
      · by_cases ht : (tx.ttype == "debit") = true
        · simp [classifyTx, hfind, hbeq, hd, ht]
        · simp [classifyTx, hfind, hbeq, hd, ht]
    · intro c hc
      rcases sa with - | a
      · simp [classifyTx, hfind, hbeq, hc]
      · by_cases ht : (tx.ttype == "debit") = true
        · simp [classifyTx, hfind, hbeq, hc, ht]
        · simp [classifyTx, hfind, hbeq, hc, ht]
    · intro hsa
      subst hsa
      exact ⟨by simp [classifyTx, hfind, hbeq], by simp [classifyTx, hfind, hbeq]⟩
  · rcases hfind : (fetchRules rules u).find? (ruleMatches (jsToLower tx.description))
      with - | r
    · rcases hdef : defaultRules.find?
          (fun p => p.1.any (fun q => jsIncludes (jsToLower tx.description) q)) with - | dr
      · simp only [classifyTx, hfind, hdef]
        norm_num
      · simp only [classifyTx, hfind, hdef]
        norm_num
    · by_cases hcat : (r.category == "Uncategorized") = true
      · rcases hdef : defaultRules.find?
            (fun p => p.1.any (fun q => jsIncludes (jsToLower tx.description) q)) with - | dr
        · simp only [classifyTx, hfind, hcat, if_true, hdef, ruleConfidence]
          exact min_le_left _ _
        · simp only [classifyTx, hfind, hcat, if_true, hdef]
          norm_num
      · rw [Bool.not_eq_true] at hcat
        simp only [classifyTx, hfind, hcat, Bool.false_eq_true, if_false, ruleConfidence]
        exact min_le_left _ _
  · intro dr hfind hdef
    constructor
    · simp [classifyTx, hfind, hdef]
    · simp [classifyTx, hfind, hdef]
  · intro hfind hdef
    constructor
    · simp [classifyTx, hfind, hdef]
    · simp [classifyTx, hfind, hdef]

/-- Witness for C4: a learned rule with `hit_count = 6` matching
`SWIGGY ORDER 999` classifies it as `Food` with confidence exactly
0.95, and the suggested debit and credit accounts are the rule's. -/
theorem autoClassify_spec_witness :
    (classifyTx (fetchRules [⟨1, "swiggy order", "Food", some 7, some 8, 6⟩] 1) [] none
        ⟨"2024-01-01", "SWIGGY ORDER 999", 100, "debit", none⟩).category = "Food"
    ∧ (classifyTx (fetchRules [⟨1, "swiggy order", "Food", some 7, some 8, 6⟩] 1) [] none
        ⟨"2024-01-01", "SWIGGY ORDER 999", 100, "debit", none⟩).confidence = 95 / 100
    ∧ (classifyTx (fetchRules [⟨1, "swiggy order", "Food", some 7, some 8, 6⟩] 1) [] none
        ⟨"2024-01-01", "SWIGGY ORDER 999", 100, "debit", none⟩).debitAcc = some 7
    ∧ (classifyTx (fetchRules [⟨1, "swiggy order", "Food", some 7, some 8, 6⟩] 1) [] none
        ⟨"2024-01-01", "SWIGGY ORDER 999", 100, "debit", none⟩).creditAcc = some 8 := by
  have h := (autoClassify_spec [⟨1, "swiggy order", "Food", some 7, some 8, 6⟩] 1 [] none
    ⟨"2024-01-01", "SWIGGY ORDER 999", 100, "debit", none⟩).2.1
    ⟨1, "swiggy order", "Food", some 7, some 8, 6⟩ (by decide) (by decide)
  exact ⟨h.1, h.2.2.1 rfl, h.2.2.2.1 7 rfl, h.2.2.2.2.1 8 rfl⟩

/-- Each confirm-loop step only ever appends to the ledger. -/
theorem confirmStep_ledger_ext (u : Nat) (st : ConfirmSt) (r : StagedRow) :
    ∃ ext, (confirmStep u st r).ledger = st.ledger ++ ext := by
  unfold confirmStep
  rcases hd : r.debitAcc with - | d
  · simp only [hd]
    exact ⟨[], (List.append_nil _).symm⟩
  · rcases hc : r.creditAcc with - | c
    · simp only [hd, hc]
      exact ⟨[], (List.append_nil _).symm⟩
    · simp only [hd, hc]
      split
      · exact ⟨[], (List.append_nil _).symm⟩
      · split
        · exact ⟨[], (List.append_nil _).symm⟩
        · exact ⟨[mkTx u r d c], rfl⟩

/-- The confirm loop only ever appends to the ledger. -/
theorem confirmLoop_ledger_ext (u : Nat) :
    ∀ (rows : List StagedRow) (st : ConfirmSt),
      ∃ ext, (confirmLoop u st rows).ledger = st.ledger ++ ext := by
  intro rows
  induction rows with
  | nil => intro st; exact ⟨[], (List.append_nil _).symm⟩
  | cons a t ih =>
    intro st
    obtain ⟨e1, he1⟩ := confirmStep_ledger_ext u st a
    obtain ⟨e2, he2⟩ := ih (confirmStep u st a)
    exact ⟨e1 ++ e2, by rw [confirmLoop, List.foldl_cons, ← confirmLoop, he2, he1,
      List.append_assoc]⟩

/-- A duplicate stays a duplicate as the ledger grows. -/
theorem dupExists_append {L : List LedgerTx} {u : Nat} {r : StagedRow}
    (h : dupExists L u r = true) (ext : List LedgerTx) :
    dupExists (L ++ ext) u r = true := by
  unfold dupExists at *
  rw [List.any_append, h, Bool.true_or]

/-- `rowHandled` is monotone in the ledger. -/
theorem rowHandled_append {u : Nat} {L : List LedgerTx} {r : StagedRow}
    (h : rowHandled u L r = true) (ext : List LedgerTx) :
    rowHandled u (L ++ ext) r = true := by
  unfold rowHandled at *
  rcases hd : r.debitAcc with - | d
  · simp only [hd]
  · rcases hc : r.creditAcc with - | c
    · simp only [hd, hc]
    · simp only [hd, hc] at h ⊢
      rw [Bool.or_eq_true] at h
      rcases h with hdup | hvio
      · rw [dupExists_append hdup, Bool.true_or]
      · rw [hvio, Bool.or_true]

/-- A handled row leaves the ledger unchanged. -/
theorem confirmStep_ledger_of_handled {u : Nat} {st : ConfirmSt} {r : StagedRow}
    (h : rowHandled u st.ledger r = true) :
    (confirmStep u st r).ledger = st.ledger := by
  unfold rowHandled at h
  unfold confirmStep
  rcases hd : r.debitAcc with - | d
  · simp only [hd]
  · rcases hc : r.creditAcc with - | c
    · simp only [hd, hc]
    · simp only [hd, hc] at h ⊢
      rw [Bool.or_eq_true] at h
      rcases h with hdup | hvio
      · rw [if_pos hdup]
      · by_cases hdup : dupExists st.ledger u r = true
        · rw [if_pos hdup]
        · rw [if_neg hdup, if_pos hvio]

/-- After its own step, a row is handled with respect to the resulting
ledger. -/
theorem confirmStep_handles (u : Nat) (st : ConfirmSt) (r : StagedRow) :
    rowHandled u (confirmStep u st r).ledger r = true := by
  unfold confirmStep rowHandled
  rcases hd : r.debitAcc with - | d
  · simp only [hd]
  · rcases hc : r.creditAcc with - | c
    · simp only [hd, hc]
    · simp only [hd, hc]
      by_cases hdup : dupExists st.ledger u r = true
      · rw [if_pos hdup]
        simp only [hdup, Bool.true_or]
      · rw [if_neg hdup]
        by_cases hvio : insertViolates r d c = true
        · rw [if_pos hvio]
          simp only [hvio, Bool.or_true]
        · rw [if_neg hvio]
          have : dupExists (st.ledger ++ [mkTx u r d c]) u r = true := by
            unfold dupExists
            rw [List.any_append]
            simp [mkTx]
          simp only [this, Bool.true_or]

/-- After running the confirm loop, every processed row is handled with
respect to the final ledger. -/
theorem confirmLoop_handles (u : Nat) :
    ∀ (rows : List StagedRow) (st : ConfirmSt) (r : StagedRow), r ∈ rows →
      rowHandled u (confirmLoop u st rows).ledger r = true := by
  intro rows
  induction rows with
  | nil => intro st r h; exact absurd h (List.not_mem_nil r)
  | cons a t ih =>
    intro st r hmem
    rw [confirmLoop, List.foldl_cons, ← confirmLoop]
    rcases List.mem_cons.1 hmem with rfl | ht
    · obtain ⟨ext, hext⟩ := confirmLoop_ledger_ext u t (confirmStep u st r)
      rw [hext]
      exact rowHandled_append (confirmStep_handles u st r) ext
    · exact ih (confirmStep u st a) r ht

/-- If every row is already handled, the loop leaves the ledger
unchanged. -/
theorem confirmLoop_ledger_of_all_handled (u : Nat) :
    ∀ (rows : List StagedRow) (st : ConfirmSt),
      (∀ r ∈ rows, rowHandled u st.ledger r = true) →
      (confirmLoop u st rows).ledger = st.ledger := by
  intro rows
  induction rows with
  | nil => intro st _; rfl
  | cons a t ih =>
    intro st hall
    rw [confirmLoop, List.foldl_cons, ← confirmLoop]
    have hstep : (confirmStep u st a).ledger = st.ledger :=
      confirmStep_ledger_of_handled (hall a (List.mem_cons_self a t))
    rw [ih (confirmStep u st a) (fun r hr => by
      rw [hstep]; exact hall r (List.mem_cons_of_mem a hr)), hstep]

/-- C1: when a staged row with both suggested accounts present already
has a ledger transaction with the same owner, date, amount and
description, the confirm loop counts it as skipped and inserts nothing;
consequently running the loop a second time over the same rows (with
any rule corpus) leaves the ledger exactly as after the first run. -/
theorem confirmDuplicate_idempotent (u : Nat) :
    (∀ (st : ConfirmSt) (r : StagedRow) (d c : Nat),
      r.debitAcc = some d → r.creditAcc = some c → dupExists st.ledger u r = true →
      confirmStep u st r = { st with skipped := st.skipped + 1 })
    ∧ (∀ (L : List LedgerTx) (R R' : List RuleRow) (rows : List StagedRow),
      (confirmLoop u ⟨(confirmLoop u ⟨L, R, 0, 0, []⟩ rows).ledger, R', 0, 0, []⟩ rows).ledger
        = (confirmLoop u ⟨L, R, 0, 0, []⟩ rows).ledger) := by
  constructor
  · intro st r d c hd hc hdup
    unfold confirmStep
    simp only [hd, hc]
    rw [if_pos hdup]
  · intro L R R' rows
    exact confirmLoop_ledger_of_all_handled u rows _
      (fun r hr => confirmLoop_handles u rows ⟨L, R, 0, 0, []⟩ r hr)

/-- Witness for C1: a concrete duplicate row is skipped (no ledger
write, skipped counter incremented), and the concrete second pass
changes nothing. -/
theorem confirmDuplicate_idempotent_witness :
    confirmStep 1 ⟨[mkTx 1 shortWordsRow 1 2], [], 0, 0, []⟩ shortWordsRow
      = ⟨[mkTx 1 shortWordsRow 1 2], [], 0, 1, []⟩
    ∧ (confirmLoop 1 ⟨(confirmLoop 1 ⟨[], [], 0, 0, []⟩ [shortWordsRow]).ledger,
          [], 0, 0, []⟩ [shortWordsRow]).ledger
        = (confirmLoop 1 ⟨[], [], 0, 0, []⟩ [shortWordsRow]).ledger := by
  constructor
  · exact (confirmDuplicate_idempotent 1).1 ⟨[mkTx 1 shortWordsRow 1 2], [], 0, 0, []⟩
      shortWordsRow 1 2 (by decide) (by decide) (by decide)
  · exact (confirmDuplicate_idempotent 1).2 [] [] [] [shortWordsRow]

/-- Provenance of a ledger row across one confirm step: it was already
there, or it is the inserted row of this step, whose accounts were both
present and whose insert passed the CHECK constraints. -/
theorem confirmStep_provenance (u : Nat) (st : ConfirmSt) (r : StagedRow)
    (tx : LedgerTx) (h : tx ∈ (confirmStep u st r).ledger) :
    tx ∈ st.ledger
      ∨ ∃ d c, r.debitAcc = some d ∧ r.creditAcc = some c
          ∧ insertViolates r d c = false ∧ tx = mkTx u r d c := by
  unfold confirmStep at h
  rcases hd : r.debitAcc with - | d
  · simp only [hd] at h; exact Or.inl h
  · rcases hc : r.creditAcc with - | c
    · simp only [hd, hc] at h; exact Or.inl h
    · simp only [hd, hc] at h
      by_cases hdup : dupExists st.ledger u r = true
      · rw [if_pos hdup] at h; exact Or.inl h
      · rw [if_neg hdup] at h
        by_cases hvio : insertViolates r d c = true
        · rw [if_pos hvio] at h; exact Or.inl h
        · rw [if_neg hvio] at h
          rcases List.mem_append.1 h with hold | hnew
          · exact Or.inl hold
          · exact Or.inr ⟨d, c, rfl, rfl, Bool.of_not_eq_true hvio,
              List.mem_singleton.1 hnew⟩

/-- Provenance of a ledger row across the whole confirm loop. -/
theorem confirmLoop_provenance (u : Nat) :
    ∀ (rows : List StagedRow) (st : ConfirmSt) (tx : LedgerTx),
      tx ∈ (confirmLoop u st rows).ledger →
      tx ∈ st.ledger
        ∨ ∃ r ∈ rows, ∃ d c, r.debitAcc = some d ∧ r.creditAcc = some c
            ∧ insertViolates r d c = false ∧ tx = mkTx u r d c := by
  intro rows
  induction rows with
  | nil => intro st tx h; exact Or.inl h
  | cons a t ih =>
    intro st tx h
    rw [confirmLoop, List.foldl_cons, ← confirmLoop] at h
    rcases ih (confirmStep u st a) tx h with hstep | ⟨r, hr, d, c, h1, h2, h3, h4⟩
    · rcases confirmStep_provenance u st a tx hstep with hold | ⟨d, c, h1, h2, h3, h4⟩
      · exact Or.inl hold
      · exact Or.inr ⟨a, List.mem_cons_self a t, d, c, h1, h2, h3, h4⟩
    · exact Or.inr ⟨r, List.mem_cons_of_mem a hr, d, c, h1, h2, h3, h4⟩

/-- C2: every ledger transaction present after Confirm either predates
it or satisfies the `LedgerTransaction` invariant — distinct debit and
credit accounts and strictly positive amount — because the schema's
CHECK constraints reject any other insert (the per-row `try` records it
as an error instead). -/
theorem confirmInvariant (db : DB) (u : Nat) (batch : Option String) :
    ∀ tx ∈ (confirmImport db u batch).2.ledger,
      tx ∈ db.ledger ∨ (tx.debitAcc ≠ tx.creditAcc ∧ 0 < tx.amount) := by
  intro tx htx
  simp only [confirmImport] at htx
  split at htx
  · exact Or.inl htx
  · rcases confirmLoop_provenance u (selectStaged db u batch)
        ⟨db.ledger, db.rules, 0, 0, []⟩ tx htx with hold | ⟨r, _, d, c, _, _, hvio, htxeq⟩
    · exact Or.inl hold
    · right
      unfold insertViolates at hvio
      rw [Bool.or_eq_false_iff] at hvio
      subst htxeq
      refine ⟨?_, ?_⟩
      · intro hdc
        have : (d == c) = true := beq_iff_eq.2 hdc
        rw [this] at hvio
        exact Bool.noConfusion hvio.2
      · have : ¬(r.amount ≤ 0) := by
          intro hle
          have : decide (r.amount ≤ 0) = true := decide_eq_true hle
          rw [this] at hvio
          exact Bool.noConfusion hvio.1
        exact lt_of_not_le this

/-- Witness for C2: the committed row of the concrete state satisfies
the invariant. -/
theorem confirmInvariant_witness :
    mkTx 1 shortWordsRow 1 2 ∈ (confirmImport shortWordsDB 1 none).2.ledger
      ∧ (mkTx 1 shortWordsRow 1 2 ∈ shortWordsDB.ledger
        ∨ ((mkTx 1 shortWordsRow 1 2).debitAcc ≠ (mkTx 1 shortWordsRow 1 2).creditAcc
            ∧ 0 < (mkTx 1 shortWordsRow 1 2).amount)) := by
  have hmem : mkTx 1 shortWordsRow 1 2 ∈ (confirmImport shortWordsDB 1 none).2.ledger := by
    decide
  exact ⟨hmem, confirmInvariant shortWordsDB 1 none _ hmem⟩

/-- C3 counterexample: with a batch filter, Confirm's cleanup deletes
every staged row of that batch including the `rejected` one — the
rejected row is not retained, contrary to the claim (and the confirm
did run: it returned a result, not the empty-400 error). -/
theorem rejectedRetention_counterexample :
    rejectedRow.status = "rejected"
      ∧ rejectedRow ∈ rejectedDB.staged
      ∧ rejectedRow ∉ (confirmImport rejectedDB 1 (some "b1")).2.staged
      ∧ (confirmImport rejectedDB 1 (some "b1")).1 ≠ none :=
  ⟨by decide, by decide, by decide, by decide⟩

/-- C3 (amended): Confirm never creates a ledger transaction from a
`rejected` staged row (every new ledger row stems from a non-rejected
row of the caller matching the batch filter); without a batch filter
rejected rows survive the cleanup; but with a batch filter the cleanup
deletes all of the caller's rows of that batch, rejected ones
included. -/
theorem rejectedRetention_amended :
    (∀ (db : DB) (u : Nat) (batch : Option String) (tx : LedgerTx),
      tx ∈ (confirmImport db u batch).2.ledger →
      tx ∈ db.ledger
        ∨ ∃ r ∈ db.staged, r.user = u ∧ r.status ≠ "rejected"
            ∧ (∀ b, batch = some b → r.batch = b)
            ∧ ∃ d c, tx = mkTx u r d c)
    ∧ (∀ (db : DB) (u : Nat) (r : StagedRow), r ∈ db.staged → r.user = u →
        r.status = "rejected" → r ∈ (confirmImport db u none).2.staged)
    ∧ (∀ (db : DB) (u : Nat) (b : String), selectStaged db u (some b) ≠ [] →
        (confirmImport db u (some b)).2.staged
          = db.staged.filter (fun r => !(r.user == u && r.batch == b))) := by
  refine ⟨?_, ?_, ?_⟩
  · intro db u batch tx htx
    simp only [confirmImport] at htx
    split at htx
    · exact Or.inl htx
    · rcases confirmLoop_provenance u (selectStaged db u batch)
          ⟨db.ledger, db.rules, 0, 0, []⟩ tx htx with hold | ⟨r, hr, d, c, _, _, _, htxeq⟩
      · exact Or.inl hold
      · right
        unfold selectStaged at hr
        have hmem := List.mem_filter.1 hr
        have hp := hmem.2
        simp only [Bool.and_eq_true, beq_iff_eq, bne_iff_ne, ne_eq] at hp
        refine ⟨r, hmem.1, hp.1.1, hp.1.2, ?_, d, c, htxeq⟩
        intro b hb
        rw [hb] at hp
        exact beq_iff_eq.1 hp.2
  · intro db u r hr hu hstatus
    simp only [confirmImport]
    split
    · exact hr
    · unfold cleanupStaged
      refine List.mem_filter.2 ⟨hr, ?_⟩
      simp [hstatus]
  · intro db u b hne
    simp only [confirmImport]
    rw [if_neg (by simpa using hne)]
    rfl

/-- Witness for C3's amended theorem: on the concrete state the
rejected row survives the batchless confirm, and the batch-filtered
confirm deletes exactly the caller's rows of that batch. -/
theorem rejectedRetention_amended_witness :
    rejectedRow ∈ (confirmImport rejectedDB 1 none).2.staged
      ∧ (confirmImport rejectedDB 1 (some "b1")).2.staged
          = rejectedDB.staged.filter (fun r => !(r.user == 1 && r.batch == "b1")) := by
  constructor
  · exact rejectedRetention_amended.2.1 rejectedDB 1 rejectedRow
      (by decide) (by decide) (by decide)
  · exact rejectedRetention_amended.2.2 rejectedDB 1 "b1" (by decide)

/-- The upsert keeps every hit count at 1 or more. -/
theorem upsertRule_hit {rules : List RuleRow} (u : Nat) (p cat : String) (d c : Nat)
    (h : ∀ q ∈ rules, 1 ≤ q.hitCount) :
    ∀ q ∈ upsertRule rules u p cat d c, 1 ≤ q.hitCount := by
  intro q hq
  unfold upsertRule at hq
  split at hq
  · rcases List.mem_map.1 hq with ⟨x, hx, hfx⟩
    by_cases hxc : (x.user == u && x.pattern == p) = true
    · rw [if_pos hxc] at hfx
      have hq' : q.hitCount = x.hitCount + 1 := by rw [← hfx]
      omega
    · rw [if_neg hxc] at hfx
      rw [← hfx]
      exact h x hx
  · rcases List.mem_append.1 hq with hold | hnew
    · exact h q hold
    · rw [List.mem_singleton.1 hnew]

/-- Rule learning keeps every hit count at 1 or more. -/
theorem learnRule_hit {rules : List RuleRow} (u : Nat) (r : StagedRow) (d c : Nat)
    (h : ∀ q ∈ rules, 1 ≤ q.hitCount) :
    ∀ q ∈ learnRule rules u r d c, 1 ≤ q.hitCount := by
  intro q hq
  simp only [learnRule] at hq
  split at hq
  · split at hq
    · exact upsertRule_hit u _ _ d c h q hq
    · exact h q hq
  · exact h q hq

/-- The confirm loop keeps every hit count at 1 or more. -/
theorem confirmLoop_hit (u : Nat) :
    ∀ (rows : List StagedRow) (st : ConfirmSt),
      (∀ q ∈ st.rules, 1 ≤ q.hitCount) →
      ∀ q ∈ (confirmLoop u st rows).rules, 1 ≤ q.hitCount := by
  intro rows
  induction rows with
  | nil => intro st h; exact h
  | cons a t ih =>
    intro st h
    rw [confirmLoop, List.foldl_cons, ← confirmLoop]
    refine ih (confirmStep u st a) ?_
    intro q hq
    unfold confirmStep at hq
    rcases hd : a.debitAcc with - | d
    · simp only [hd] at hq; exact h q hq
    · rcases hc : a.creditAcc with - | c
      · simp only [hd, hc] at hq; exact h q hq
      · simp only [hd, hc] at hq
        split at hq
        · exact h q hq
        · split at hq
          · exact h q hq
          · exact learnRule_hit u a d c h q hq

/-- C9 (amended): rule learning fires only for a non-empty description,
a category other than `Uncategorized`, and a derived pattern of length
at least 3 — otherwise the corpus is untouched; when it fires it
upserts: a missing `(owner, pattern)` row is inserted with
`hit_count = 1`, an existing one has category and accounts overwritten
and `hit_count` incremented; hence every stored rule keeps
`hit_count ≥ 1` across Confirm. -/
theorem ruleLearning_amended :
    (∀ (rules : List RuleRow) (u : Nat) (r : StagedRow) (d c : Nat),
      (patternOf r.description).length < 3 → learnRule rules u r d c = rules)
    ∧ (∀ (rules : List RuleRow) (u : Nat) (r : StagedRow) (d c : Nat),
        r.description ≠ "" → r.category ≠ "Uncategorized" →
        3 ≤ (patternOf r.description).length →
        learnRule rules u r d c
          = upsertRule rules u (patternOf r.description) r.category d c)
    ∧ (∀ (rules : List RuleRow) (u : Nat) (p cat : String) (d c : Nat),
        rules.any (fun q => q.user == u && q.pattern == p) = false →
        upsertRule rules u p cat d c = rules ++ [⟨u, p, cat, some d, some c, 1⟩])
    ∧ (∀ (rules : List RuleRow) (u : Nat) (p cat : String) (d c : Nat),
        rules.any (fun q => q.user == u && q.pattern == p) = true →
        upsertRule rules u p cat d c
          = rules.map fun q =>
              if q.user == u && q.pattern == p then
                ⟨q.user, q.pattern, cat, some d, some c, q.hitCount + 1⟩
              else q)
    ∧ (∀ (db : DB) (u : Nat) (batch : Option String),
        (∀ q ∈ db.rules, 1 ≤ q.hitCount) →
        ∀ q ∈ (confirmImport db u batch).2.rules, 1 ≤ q.hitCount) := by
  refine ⟨?_, ?_, ?_, ?_, ?_⟩
  · intro rules u r d c hlen
    unfold learnRule
    split
    · rw [if_neg (by omega)]
    · rfl
  · intro rules u r d c hdesc hcat hlen
    unfold learnRule
    rw [if_pos (by simp [hdesc, hcat]), if_pos hlen]
  · intro rules u p cat d c hno
    unfold upsertRule
    rw [if_neg (by simp [hno])]
  · intro rules u p cat d c hyes
    unfold upsertRule
    rw [if_pos hyes]
  · intro db u batch h q hq
    simp only [confirmImport] at hq
    split at hq
    · exact h q hq
    · exact confirmLoop_hit u (selectStaged db u batch)
        ⟨db.ledger, db.rules, 0, 0, []⟩ h q hq

/-- Witness for C9's amended theorem: on concrete inputs the guard, the
insert and the increment cases all fire, and the concrete confirm keeps
the incremented rule's hit count at 1 or more. -/
theorem ruleLearning_amended_witness :
    learnRule [] 1 shortWordsRow 1 2 = []
      ∧ learnRule [] 1 swiggyRow 1 2
          = upsertRule [] 1 "swiggy order bangalore" "Food" 1 2
      ∧ upsertRule [] 1 "swiggy order bangalore" "Food" 1 2
          = [⟨1, "swiggy order bangalore", "Food", some 1, some 2, 1⟩]
      ∧ upsertRule [⟨1, "swiggy order bangalore", "Dining", some 9, some 8, 3⟩]
            1 "swiggy order bangalore" "Food" 1 2
          = [⟨1, "swiggy order bangalore", "Food", some 1, some 2, 4⟩]
      ∧ 1 ≤ (⟨1, "swiggy order bangalore", "Food", some 1, some 2, 4⟩ : RuleRow).hitCount := by
  refine ⟨?_, ?_, ?_, ?_, ?_⟩
  · exact ruleLearning_amended.1 [] 1 shortWordsRow 1 2 (by decide)
  · have h := ruleLearning_amended.2.1 [] 1 swiggyRow 1 2 (by decide) (by decide) (by decide)
    exact h.trans (by decide)
  · exact (ruleLearning_amended.2.2.1 [] 1 "swiggy order bangalore" "Food" 1 2 rfl)
  · have h := ruleLearning_amended.2.2.2.1
      [⟨1, "swiggy order bangalore", "Dining", some 9, some 8, 3⟩]
      1 "swiggy order bangalore" "Food" 1 2 (by decide)
    exact h.trans (by decide)
  · exact ruleLearning_amended.2.2.2.2 swiggyDB 1 none (by decide)
      ⟨1, "swiggy order bangalore", "Food", some 1, some 2, 4⟩ (by decide)

/-- C9 counterexample: a successful insert whose description has no
alphabetic token longer than two characters upserts nothing — the
derived pattern is empty, so the corpus stays empty although the claim
demands an upsert on every successful non-`Uncategorized` insert. -/
theorem ruleLearning_counterexample :
    shortWordsRow.description ≠ ""
      ∧ shortWordsRow.category ≠ "Uncategorized"
      ∧ (confirmImport shortWordsDB 1 none).1 = some ⟨1, 0, []⟩
      ∧ (confirmImport shortWordsDB 1 none).2.rules = [] :=
  ⟨by decide, by decide, by decide, by decide⟩

/-- Filtering by `user == u && A` depends only on the owner's rows. -/
theorem stagedFilter_congr (u : Nat) (A : StagedRow → Bool) {l1 l2 : List StagedRow}
    (h : stagedOf u l1 = stagedOf u l2) :
    l1.filter (fun r => r.user == u && A r) = l2.filter (fun r => r.user == u && A r) := by
  rw [filter_and_left, filter_and_left]
  unfold stagedOf at h
  rw [h]

/-- Filtering rules by `user == u && A` depends only on the owner's
rules. -/
theorem rulesFilter_congr (u : Nat) (A : RuleRow → Bool) {l1 l2 : List RuleRow}
    (h : rulesOf u l1 = rulesOf u l2) :
    l1.filter (fun r => r.user == u && A r) = l2.filter (fun r => r.user == u && A r) := by
  rw [filter_and_left, filter_and_left]
  unfold rulesOf at h
  rw [h]

/-- The owner's view of an upsert depends only on the owner's rules. -/
theorem upsertRule_rulesOf_congr (u : Nat) (p cat : String) (d c : Nat)
    {l1 l2 : List RuleRow} (h : rulesOf u l1 = rulesOf u l2) :
    rulesOf u (upsertRule l1 u p cat d c) = rulesOf u (upsertRule l2 u p cat d c) := by
  have hany : l1.any (fun q => q.user == u && q.pattern == p)
      = l2.any (fun q => q.user == u && q.pattern == p) := by
    rw [any_and_filter, any_and_filter]
    unfold rulesOf at h
    rw [h]
  have huser : ∀ q : RuleRow,
      ((if q.user == u && q.pattern == p then
          { q with category := cat, debitAcc := some d, creditAcc := some c,
                   hitCount := q.hitCount + 1 }
        else q).user == u) = (q.user == u) := by
    intro q
    by_cases hq : (q.user == u && q.pattern == p) = true
    · rw [if_pos hq]
    · rw [if_neg hq]
  unfold upsertRule
  rw [hany]
  by_cases hc : l2.any (fun q => q.user == u && q.pattern == p) = true
  · rw [if_pos hc, if_pos hc]
    unfold rulesOf at h ⊢
    rw [filter_map_comm _ _ huser, filter_map_comm _ _ huser, h]
  · rw [if_neg hc, if_neg hc]
    unfold rulesOf at h ⊢
    rw [filter_append', filter_append', h]

/-- An upsert for owner `u` leaves every other owner's rules alone. -/
theorem upsertRule_rulesOf_frame (u : Nat) (p cat : String) (d c : Nat)
    (l : List RuleRow) (v : Nat) (hvu : v ≠ u) :
    rulesOf v (upsertRule l u p cat d c) = rulesOf v l := by
  have huser : ∀ q : RuleRow,
      ((if q.user == u && q.pattern == p then
          { q with category := cat, debitAcc := some d, creditAcc := some c,
                   hitCount := q.hitCount + 1 }
        else q).user == v) = (q.user == v) := by
    intro q
    by_cases hq : (q.user == u && q.pattern == p) = true
    · rw [if_pos hq]
    · rw [if_neg hq]
  unfold upsertRule
  split
  · unfold rulesOf
    refine filter_map_invisible _ _ ?_ huser l
    intro a ha
    have hau : (a.user == u) = false := by
      have : a.user = v := beq_iff_eq.1 ha
      simp [this, hvu]
    rw [if_neg (by simp [hau])]
  · unfold rulesOf
    rw [filter_append']
    have : List.filter (fun r => r.user == v)
        [(⟨u, p, cat, some d, some c, 1⟩ : RuleRow)] = [] := by
      simp [Ne.symm hvu]
    rw [this, List.append_nil]

/-- The owner's view of rule learning depends only on the owner's
rules. -/
theorem learnRule_rulesOf_congr (u : Nat) (r : StagedRow) (d c : Nat)
    {l1 l2 : List RuleRow} (h : rulesOf u l1 = rulesOf u l2) :
    rulesOf u (learnRule l1 u r d c) = rulesOf u (learnRule l2 u r d c) := by
  simp only [learnRule]
  split
  · split
    · exact upsertRule_rulesOf_congr u _ _ d c h
    · exact h
  · exact h

/-- Rule learning for owner `u` leaves other owners' rules alone. -/
theorem learnRule_rulesOf_frame (u : Nat) (r : StagedRow) (d c : Nat)
    (l : List RuleRow) (v : Nat) (hvu : v ≠ u) :
    rulesOf v (learnRule l u r d c) = rulesOf v l := by
  simp only [learnRule]
  split
  · split
    · exact upsertRule_rulesOf_frame u _ _ d c l v hvu
    · rfl
  · rfl

/-- One confirm step preserves loop-state agreement for the owner. -/
theorem confirmStep_agree (u : Nat) {a b : ConfirmSt} (r : StagedRow)
    (h : StAgree u a b) : StAgree u (confirmStep u a r) (confirmStep u b r) := by
  obtain ⟨hl, hr, hi, hs, he⟩ := h
  unfold confirmStep
  rcases hd : r.debitAcc with - | d
  · simp only [hd]
    exact ⟨hl, hr, by rw [hi], by rw [hs], he⟩
  · rcases hc : r.creditAcc with - | c
    · simp only [hd, hc]
      exact ⟨hl, hr, by rw [hi], by rw [hs], he⟩
    · simp only [hd, hc]
      rw [hl]
      by_cases hdup : dupExists b.ledger u r = true
      · rw [if_pos hdup, if_pos hdup]
        exact ⟨rfl, hr, by rw [hi], by rw [hs], he⟩
      · rw [if_neg hdup, if_neg hdup]
        by_cases hvio : insertViolates r d c = true
        · rw [if_pos hvio, if_pos hvio]
          exact ⟨rfl, hr, by rw [hi], by rw [hs], by rw [he]⟩
        · rw [if_neg hvio, if_neg hvio]
          exact ⟨rfl, learnRule_rulesOf_congr u r d c hr, by rw [hi],
            by rw [hs], he⟩

/-- The confirm loop preserves loop-state agreement for the owner. -/
theorem confirmLoop_agree (u : Nat) :
    ∀ (rows : List StagedRow) {a b : ConfirmSt}, StAgree u a b →
      StAgree u (confirmLoop u a rows) (confirmLoop u b rows) := by
  intro rows
  induction rows with
  | nil => intro a b h; exact h
  | cons x t ih =>
    intro a b h
    simp only [confirmLoop, List.foldl_cons]
    exact ih (confirmStep_agree u x h)

/-- One confirm step leaves other owners' rules alone. -/
theorem confirmStep_rules_frame (u : Nat) (st : ConfirmSt) (r : StagedRow)
    (v : Nat) (hvu : v ≠ u) :
    rulesOf v (confirmStep u st r).rules = rulesOf v st.rules := by
  unfold confirmStep
  rcases hd : r.debitAcc with - | d
  · rfl
  · rcases hc : r.creditAcc with - | c
    · simp only [hd, hc]
    · simp only [hd, hc]
      split
      · rfl
      · split
        · rfl
        · exact learnRule_rulesOf_frame u r _ _ st.rules v hvu

/-- The confirm loop leaves other owners' rules alone. -/
theorem confirmLoop_rules_frame (u : Nat) :
    ∀ (rows : List StagedRow) (st : ConfirmSt) (v : Nat), v ≠ u →
      rulesOf v (confirmLoop u st rows).rules = rulesOf v st.rules := by
  intro rows
  induction rows with
  | nil => intro st v _; rfl
  | cons x t ih =>
    intro st v hvu
    simp only [confirmLoop, List.foldl_cons]
    have h1 := ih (confirmStep u st x) v hvu
    simp only [confirmLoop] at h1
    rw [h1]
    exact confirmStep_rules_frame u st x v hvu

/-- Two filters commute. -/
theorem filter_swap {α : Type} (p q : α → Bool) (l : List α) :
    (l.filter p).filter q = (l.filter q).filter p := by
  rw [← filter_and_left, filter_and_right]

/-- A filter whose predicate entails ownership depends only on the
owner's elements. -/
theorem ownedFilter_congr {α : Type} (owner p : α → Bool)
    (himp : ∀ a, p a = true → owner a = true) {l1 l2 : List α}
    (h : l1.filter owner = l2.filter owner) :
    l1.filter p = l2.filter p := by
  rw [← filter_entails_keep p owner himp l1, ← filter_entails_keep p owner himp l2, h]

/-- The owner's slice of any filter depends only on the owner's rows. -/
theorem stagedOf_filter_congr (u : Nat) (p : StagedRow → Bool)
    {l1 l2 : List StagedRow} (h : stagedOf u l1 = stagedOf u l2) :
    stagedOf u (l1.filter p) = stagedOf u (l2.filter p) := by
  unfold stagedOf at h ⊢
  rw [filter_swap p _ l1, filter_swap p _ l2, h]

/-- A filter under which every row of owner `v` survives is invisible
to `v`'s slice. -/
theorem stagedOf_filter_keep (v : Nat) (p : StagedRow → Bool)
    (hp : ∀ r : StagedRow, r.user = v → p r = true) (l : List StagedRow) :
    stagedOf v (l.filter p) = stagedOf v l := by
  unfold stagedOf
  refine filter_entails_keep _ _ ?_ l
  intro a ha
  exact hp a (beq_iff_eq.1 ha)

/-- `GET /staged` returns the same rows on two states that agree for
the caller. -/
theorem listStaged_congr (u : Nat) (batch : Option String) {s1 s2 : DB}
    (h : Agree u s1 s2) :
    listStaged s1 u batch = listStaged s2 u batch := by
  obtain ⟨hs, _, _, ha⟩ := h
  unfold stagedOf at hs
  simp only [listStaged]
  rw [ha]
  congr 1
  congr 1
  refine ownedFilter_congr (fun r => r.user == u) _ ?_ hs
  intro a hpa
  simp only [Bool.and_eq_true] at hpa
  exact hpa.1.1

/-- `GET /rules` returns the same rules on two states that agree for
the caller. -/
theorem listRules_congr (u : Nat) {s1 s2 : DB} (h : Agree u s1 s2) :
    listRules s1 u = listRules s2 u := by
  obtain ⟨_, hr, _, _⟩ := h
  unfold rulesOf at hr
  unfold listRules
  rw [hr]

/-- The `POST /confirm` staged selection depends only on the caller's
rows. -/
theorem selectStaged_congr (u : Nat) (batch : Option String) {s1 s2 : DB}
    (h : stagedOf u s1.staged = stagedOf u s2.staged) :
    selectStaged s1 u batch = selectStaged s2 u batch := by
  unfold stagedOf at h
  unfold selectStaged
  refine ownedFilter_congr (fun r => r.user == u) _ ?_ h
  intro a hpa
  simp only [Bool.and_eq_true] at hpa
  exact hpa.1.1

/-- `PUT /staged/:id` on two states that agree for the caller returns
the same response and leaves agreeing states. -/
theorem editStaged_congr (u rowId : Nat) (e : EditReq) {s1 s2 : DB}
    (h : Agree u s1 s2) :
    (editStaged s1 u rowId e).1 = (editStaged s2 u rowId e).1
      ∧ Agree u (editStaged s1 u rowId e).2 (editStaged s2 u rowId e).2 := by
  obtain ⟨hs, hr, hl, ha⟩ := h
  have hu : ∀ r : StagedRow,
      ((if r.id == rowId && r.user == u then applyEdit e r else r).user == u)
        = (r.user == u) := by
    intro r
    by_cases hg : (r.id == rowId && r.user == u) = true
    · rw [if_pos hg]; rfl
    · rw [if_neg hg]
  have hst : stagedOf u (s1.staged.map fun r =>
        if r.id == rowId && r.user == u then applyEdit e r else r)
      = stagedOf u (s2.staged.map fun r =>
        if r.id == rowId && r.user == u then applyEdit e r else r) := by
    unfold stagedOf at hs ⊢
    rw [filter_map_comm (fun r : StagedRow =>
          if r.id == rowId && r.user == u then applyEdit e r else r)
        (fun r : StagedRow => r.user == u) hu s1.staged,
      filter_map_comm (fun r : StagedRow =>
          if r.id == rowId && r.user == u then applyEdit e r else r)
        (fun r : StagedRow => r.user == u) hu s2.staged, hs]
  have hfl : (s1.staged.map fun r =>
        if r.id == rowId && r.user == u then applyEdit e r else r).filter
        (fun r => r.id == rowId && r.user == u)
      = (s2.staged.map fun r =>
        if r.id == rowId && r.user == u then applyEdit e r else r).filter
        (fun r => r.id == rowId && r.user == u) := by
    have hst' := hst
    unfold stagedOf at hst'
    refine ownedFilter_congr (fun r => r.user == u) _ ?_ hst'
    intro a hpa
    simp only [Bool.and_eq_true] at hpa
    exact hpa.2
  simp only [editStaged]
  by_cases hf : (!e.hasFields) = true
  · rw [if_pos hf, if_pos hf]
    exact ⟨rfl, hs, hr, hl, ha⟩
  · rw [if_neg hf, if_neg hf]
    rw [hfl]
    cases hcase : ((s2.staged.map fun r =>
        if r.id == rowId && r.user == u then applyEdit e r else r).filter
        (fun r => r.id == rowId && r.user == u)).head? with
    | none => exact ⟨rfl, hs, hr, hl, ha⟩
    | some r => exact ⟨rfl, hst, hr, hl, ha⟩

/-- `PUT /staged/:id` invoked by `u` leaves every other owner's staged
rows and rules alone. -/
theorem editStaged_frame (u rowId : Nat) (e : EditReq) (db : DB)
    (v : Nat) (hvu : v ≠ u) :
    stagedOf v (editStaged db u rowId e).2.staged = stagedOf v db.staged
      ∧ rulesOf v (editStaged db u rowId e).2.rules = rulesOf v db.rules := by
  have hinv : stagedOf v (db.staged.map fun r =>
        if r.id == rowId && r.user == u then applyEdit e r else r)
      = stagedOf v db.staged := by
    unfold stagedOf
    refine filter_map_invisible _ _ ?_ ?_ db.staged
    · intro a hav
      have h1 : a.user = v := beq_iff_eq.1 hav
      rw [if_neg (by simp [h1, hvu])]
    · intro a
      by_cases hg : (a.id == rowId && a.user == u) = true
      · rw [if_pos hg]; rfl
      · rw [if_neg hg]
  simp only [editStaged]
  by_cases hf : (!e.hasFields) = true
  · rw [if_pos hf]; exact ⟨rfl, rfl⟩
  · rw [if_neg hf]
    cases hcase : ((db.staged.map fun r =>
        if r.id == rowId && r.user == u then applyEdit e r else r).filter
        (fun r => r.id == rowId && r.user == u)).head? with
    | none => exact ⟨rfl, rfl⟩
    | some r => exact ⟨hinv, rfl⟩

/-- One bulk-update iteration preserves caller agreement and the
running count. -/
theorem bulkStep_congr (u : Nat) (bq : BulkReq) (i : Nat) {a1 a2 : Nat × DB}
    (hc : a1.1 = a2.1) (h : Agree u a1.2 a2.2) :
    (bulkStep u bq a1 i).1 = (bulkStep u bq a2 i).1
      ∧ Agree u (bulkStep u bq a1 i).2 (bulkStep u bq a2 i).2 := by
  obtain ⟨hs, hr, hl, ha⟩ := h
  have hu : ∀ r : StagedRow,
      ((if r.id == i && r.user == u then applyBulk bq r else r).user == u)
        = (r.user == u) := by
    intro r
    by_cases hg : (r.id == i && r.user == u) = true
    · rw [if_pos hg]; rfl
    · rw [if_neg hg]
  simp only [bulkStep]
  by_cases hf : bq.hasFields = true
  · rw [if_pos hf, if_pos hf]
    constructor
    · rw [hc]
    constructor
    · show stagedOf u (a1.2.staged.map fun r =>
          if r.id == i && r.user == u then applyBulk bq r else r)
        = stagedOf u (a2.2.staged.map fun r =>
          if r.id == i && r.user == u then applyBulk bq r else r)
      unfold stagedOf at hs ⊢
      rw [filter_map_comm (fun r : StagedRow =>
            if r.id == i && r.user == u then applyBulk bq r else r)
          (fun r : StagedRow => r.user == u) hu a1.2.staged,
        filter_map_comm (fun r : StagedRow =>
            if r.id == i && r.user == u then applyBulk bq r else r)
          (fun r : StagedRow => r.user == u) hu a2.2.staged, hs]
    · exact ⟨hr, hl, ha⟩
  · rw [if_neg hf, if_neg hf]
    exact ⟨hc, hs, hr, hl, ha⟩

/-- One bulk-update iteration for `u` leaves other owners' rows
alone. -/
theorem bulkStep_frame (u : Nat) (bq : BulkReq) (i : Nat) (a : Nat × DB)
    (v : Nat) (hvu : v ≠ u) :
    stagedOf v (bulkStep u bq a i).2.staged = stagedOf v a.2.staged
      ∧ (bulkStep u bq a i).2.rules = a.2.rules := by
  simp only [bulkStep]
  by_cases hf : bq.hasFields = true
  · rw [if_pos hf]
    constructor
    · show stagedOf v (a.2.staged.map fun r =>
          if r.id == i && r.user == u then applyBulk bq r else r)
        = stagedOf v a.2.staged
      unfold stagedOf
      refine filter_map_invisible _ _ ?_ ?_ a.2.staged
      · intro x hx
        have h1 : x.user = v := beq_iff_eq.1 hx
        rw [if_neg (by simp [h1, hvu])]
      · intro x
        by_cases hg : (x.id == i && x.user == u) = true
        · rw [if_pos hg]; rfl
        · rw [if_neg hg]
    · rfl
  · rw [if_neg hf]
    exact ⟨rfl, rfl⟩

/-- The bulk-update fold preserves caller agreement and the count. -/
theorem bulkFold_congr (u : Nat) (bq : BulkReq) :
    ∀ (ids : List Nat) {a1 a2 : Nat × DB}, a1.1 = a2.1 → Agree u a1.2 a2.2 →
      (ids.foldl (bulkStep u bq) a1).1 = (ids.foldl (bulkStep u bq) a2).1
        ∧ Agree u (ids.foldl (bulkStep u bq) a1).2 (ids.foldl (bulkStep u bq) a2).2 := by
  intro ids
  induction ids with
  | nil => intro a1 a2 hc h; exact ⟨hc, h⟩
  | cons x t ih =>
    intro a1 a2 hc h
    simp only [List.foldl_cons]
    obtain ⟨hc', h'⟩ := bulkStep_congr u bq x hc h
    exact ih hc' h'

/-- The bulk-update fold for `u` leaves other owners' rows alone. -/
theorem bulkFold_frame (u : Nat) (bq : BulkReq) (v : Nat) (hvu : v ≠ u) :
    ∀ (ids : List Nat) (a : Nat × DB),
      stagedOf v (ids.foldl (bulkStep u bq) a).2.staged = stagedOf v a.2.staged
        ∧ (ids.foldl (bulkStep u bq) a).2.rules = a.2.rules := by
  intro ids
  induction ids with
  | nil => intro a; exact ⟨rfl, rfl⟩
  | cons x t ih =>
    intro a
    simp only [List.foldl_cons]
    obtain ⟨h1, h2⟩ := ih (bulkStep u bq a x)
    obtain ⟨g1, g2⟩ := bulkStep_frame u bq x a v hvu
    exact ⟨h1.trans g1, h2.trans g2⟩

/-- `POST /confirm` on two states that agree for the caller returns the
same response and leaves agreeing states. -/
theorem confirmImport_congr (u : Nat) (batch : Option String) {s1 s2 : DB}
    (h : Agree u s1 s2) :
    (confirmImport s1 u batch).1 = (confirmImport s2 u batch).1
      ∧ Agree u (confirmImport s1 u batch).2 (confirmImport s2 u batch).2 := by
  obtain ⟨hs, hr, hl, ha⟩ := h
  have hsel : selectStaged s1 u batch = selectStaged s2 u batch :=
    selectStaged_congr u batch hs
  simp only [confirmImport]
  rw [hsel]
  by_cases hemp : (selectStaged s2 u batch).isEmpty = true
  · rw [if_pos hemp, if_pos hemp]
    exact ⟨rfl, hs, hr, hl, ha⟩
  · rw [if_neg hemp, if_neg hemp]
    have hinit : StAgree u ⟨s1.ledger, s1.rules, 0, 0, []⟩
        ⟨s2.ledger, s2.rules, 0, 0, []⟩ := ⟨hl, hr, rfl, rfl, rfl⟩
    obtain ⟨hfl, hfr, hfi, hfs, hfe⟩ :=
      confirmLoop_agree u (selectStaged s2 u batch) hinit
    refine ⟨by rw [hfi, hfs, hfe], ?_, hfr, hfl, by rw [ha, hfl]⟩
    show stagedOf u (cleanupStaged s1.staged u batch)
      = stagedOf u (cleanupStaged s2.staged u batch)
    unfold cleanupStaged
    cases batch with
    | some b => exact stagedOf_filter_congr u _ hs
    | none => exact stagedOf_filter_congr u _ hs

/-- `POST /confirm` invoked by `u` leaves every other owner's staged
rows and rules alone. -/
theorem confirmImport_frame (u : Nat) (batch : Option String) (db : DB)
    (v : Nat) (hvu : v ≠ u) :
    stagedOf v (confirmImport db u batch).2.staged = stagedOf v db.staged
      ∧ rulesOf v (confirmImport db u batch).2.rules = rulesOf v db.rules := by
  simp only [confirmImport]
  by_cases hemp : (selectStaged db u batch).isEmpty = true
  · rw [if_pos hemp]; exact ⟨rfl, rfl⟩
  · rw [if_neg hemp]
    constructor
    · show stagedOf v (cleanupStaged db.staged u batch) = stagedOf v db.staged
      unfold cleanupStaged
      cases batch with
      | some b =>
        refine stagedOf_filter_keep v _ ?_ db.staged
        intro r h1
        simp [h1, hvu]
      | none =>
        refine stagedOf_filter_keep v _ ?_ db.staged
        intro r h1
        simp [h1, hvu]
    · show rulesOf v (confirmLoop u ⟨db.ledger, db.rules, 0, 0, []⟩
          (selectStaged db u batch)).rules = rulesOf v db.rules
      exact confirmLoop_rules_frame u (selectStaged db u batch)
        ⟨db.ledger, db.rules, 0, 0, []⟩ v hvu

/-- `DELETE /staged` on two states that agree for the caller leaves
agreeing states. -/
theorem clearStaged_congr (u : Nat) (batch : Option String) {s1 s2 : DB}
    (h : Agree u s1 s2) :
    Agree u (clearStaged s1 u batch) (clearStaged s2 u batch) := by
  obtain ⟨hs, hr, hl, ha⟩ := h
  unfold clearStaged
  cases batch with
  | some b => exact ⟨stagedOf_filter_congr u _ hs, hr, hl, ha⟩
  | none => exact ⟨stagedOf_filter_congr u _ hs, hr, hl, ha⟩

/-- `DELETE /staged` invoked by `u` leaves every other owner's staged
rows and rules alone. -/
theorem clearStaged_frame (u : Nat) (batch : Option String) (db : DB)
    (v : Nat) (hvu : v ≠ u) :
    stagedOf v (clearStaged db u batch).staged = stagedOf v db.staged
      ∧ rulesOf v (clearStaged db u batch).rules = rulesOf v db.rules := by
  unfold clearStaged
  cases batch with
  | some b =>
    refine ⟨?_, rfl⟩
    refine stagedOf_filter_keep v _ ?_ db.staged
    intro r h1
    simp [h1, hvu]
  | none =>
    refine ⟨?_, rfl⟩
    refine stagedOf_filter_keep v _ ?_ db.staged
    intro r h1
    simp [h1, hvu]

/-- C10: owner isolation of the staging-store and rule-corpus routes.
Every operation (list staged, single edit, bulk edit, confirm, clear
staged, list rules) filters by the caller's user id, so (congruence) on
two states that differ only in another owner's staged rows and rules the
operation returns the same result and makes the same changes for the
caller, and (frame) an operation invoked by one owner never modifies a
different owner's staged rows or category rules. -/
theorem ownerIsolation_spec (u v : Nat) (hvu : v ≠ u)
    (s1 s2 db : DB) (h : Agree u s1 s2) (batch : Option String)
    (rowId : Nat) (e : EditReq) (ids : List Nat) (bq : BulkReq) :
    (listStaged s1 u batch = listStaged s2 u batch)
    ∧ ((editStaged s1 u rowId e).1 = (editStaged s2 u rowId e).1
        ∧ Agree u (editStaged s1 u rowId e).2 (editStaged s2 u rowId e).2)
    ∧ ((bulkEditStaged s1 u ids bq).1 = (bulkEditStaged s2 u ids bq).1
        ∧ Agree u (bulkEditStaged s1 u ids bq).2 (bulkEditStaged s2 u ids bq).2)
    ∧ ((confirmImport s1 u batch).1 = (confirmImport s2 u batch).1
        ∧ Agree u (confirmImport s1 u batch).2 (confirmImport s2 u batch).2)
    ∧ Agree u (clearStaged s1 u batch) (clearStaged s2 u batch)
    ∧ (listRules s1 u = listRules s2 u)
    ∧ (stagedOf v (editStaged db u rowId e).2.staged = stagedOf v db.staged
        ∧ rulesOf v (editStaged db u rowId e).2.rules = rulesOf v db.rules)
    ∧ (stagedOf v (bulkEditStaged db u ids bq).2.staged = stagedOf v db.staged
        ∧ rulesOf v (bulkEditStaged db u ids bq).2.rules = rulesOf v db.rules)
    ∧ (stagedOf v (confirmImport db u batch).2.staged = stagedOf v db.staged
        ∧ rulesOf v (confirmImport db u batch).2.rules = rulesOf v db.rules)
    ∧ (stagedOf v (clearStaged db u batch).staged = stagedOf v db.staged
        ∧ rulesOf v (clearStaged db u batch).rules = rulesOf v db.rules) := by
  refine ⟨listStaged_congr u batch h,
    editStaged_congr u rowId e h,
    ?_,
    confirmImport_congr u batch h,
    clearStaged_congr u batch h,
    listRules_congr u h,
    editStaged_frame u rowId e db v hvu,
    ?_,
    confirmImport_frame u batch db v hvu,
    clearStaged_frame u batch db v hvu⟩
  · show (bulkEditStaged s1 u ids bq).1 = (bulkEditStaged s2 u ids bq).1
      ∧ Agree u (bulkEditStaged s1 u ids bq).2 (bulkEditStaged s2 u ids bq).2
    unfold bulkEditStaged
    exact bulkFold_congr u bq ids rfl h
  · show stagedOf v (bulkEditStaged db u ids bq).2.staged = stagedOf v db.staged
      ∧ rulesOf v (bulkEditStaged db u ids bq).2.rules = rulesOf v db.rules
    unfold bulkEditStaged
    obtain ⟨h1, h2⟩ := bulkFold_frame u bq v hvu ids (0, db)
    exact ⟨h1, by rw [h2]⟩

/-- Closed instance of the owner-isolation theorem: owners 1 and 2 on
a state with and without owner 2's row and rule. -/
theorem ownerIsolation_spec_witness :
    ((2 : Nat) ≠ 1 ∧ Agree 1 aliceOnlyDB aliceBobDB)
    ∧ ((listStaged aliceOnlyDB 1 none = listStaged aliceBobDB 1 none)
    ∧ ((editStaged aliceOnlyDB 1 1 ⟨some "Food", none, none, none, none, none, none⟩).1
          = (editStaged aliceBobDB 1 1 ⟨some "Food", none, none, none, none, none, none⟩).1
        ∧ Agree 1 (editStaged aliceOnlyDB 1 1 ⟨some "Food", none, none, none, none, none, none⟩).2
            (editStaged aliceBobDB 1 1 ⟨some "Food", none, none, none, none, none, none⟩).2)
    ∧ ((bulkEditStaged aliceOnlyDB 1 [10] ⟨some "Food", none, none, none, none⟩).1
          = (bulkEditStaged aliceBobDB 1 [10] ⟨some "Food", none, none, none, none⟩).1
        ∧ Agree 1 (bulkEditStaged aliceOnlyDB 1 [10] ⟨some "Food", none, none, none, none⟩).2
            (bulkEditStaged aliceBobDB 1 [10] ⟨some "Food", none, none, none, none⟩).2)
    ∧ ((confirmImport aliceOnlyDB 1 none).1 = (confirmImport aliceBobDB 1 none).1
        ∧ Agree 1 (confirmImport aliceOnlyDB 1 none).2 (confirmImport aliceBobDB 1 none).2)
    ∧ Agree 1 (clearStaged aliceOnlyDB 1 none) (clearStaged aliceBobDB 1 none)
    ∧ (listRules aliceOnlyDB 1 = listRules aliceBobDB 1)
    ∧ (stagedOf 2 (editStaged aliceBobDB 1 1 ⟨some "Food", none, none, none, none, none, none⟩).2.staged
          = stagedOf 2 aliceBobDB.staged
        ∧ rulesOf 2 (editStaged aliceBobDB 1 1 ⟨some "Food", none, none, none, none, none, none⟩).2.rules
          = rulesOf 2 aliceBobDB.rules)
    ∧ (stagedOf 2 (bulkEditStaged aliceBobDB 1 [10] ⟨some "Food", none, none, none, none⟩).2.staged
          = stagedOf 2 aliceBobDB.staged
        ∧ rulesOf 2 (bulkEditStaged aliceBobDB 1 [10] ⟨some "Food", none, none, none, none⟩).2.rules
          = rulesOf 2 aliceBobDB.rules)
    ∧ (stagedOf 2 (confirmImport aliceBobDB 1 none).2.staged = stagedOf 2 aliceBobDB.staged
        ∧ rulesOf 2 (confirmImport aliceBobDB 1 none).2.rules = rulesOf 2 aliceBobDB.rules)
    ∧ (stagedOf 2 (clearStaged aliceBobDB 1 none).staged = stagedOf 2 aliceBobDB.staged
        ∧ rulesOf 2 (clearStaged aliceBobDB 1 none).rules = rulesOf 2 aliceBobDB.rules)) :=
  ⟨⟨by decide, by unfold Agree stagedOf rulesOf; decide⟩,
   ownerIsolation_spec 1 2 (by decide) aliceOnlyDB aliceBobDB aliceBobDB
     (by unfold Agree stagedOf rulesOf; decide) none 1
     ⟨some "Food", none, none, none, none, none, none⟩ [10]
     ⟨some "Food", none, none, none, none⟩⟩
